import Mathlib

/-!
# A shallow embedding of the bzip2 decompressor core (`src/decompress.c`)

`BZ2_decompress` is a resumable state machine: a single C function whose body is
a `switch` over `s->state`, where every bit-level fetch (`GET_BITS`) is its own
`case` label so that exhaustion of the input buffer can suspend the function and
a later call can resume at the very same fetch.  We embed it as follows:

* `M` is the machine state: the fields of `DState` that `BZ2_decompress`
  touches, together with the local variables of the function.  The C function
  restores those locals from the `save_*` area on entry and stores them back at
  `save_state_and_return`; since that save/restore is the identity on the pair
  (locals, save area), the embedding simply keeps the locals in `M`.
* `exec1` performs one "macro step": if the pending fetch at the current label
  can be satisfied from the 32-bit bit buffer, it extracts the bits exactly as
  `GET_BITS` does and runs the straight-line code up to the next label
  (`runSeg`); otherwise it reports that a byte of input is needed.
* `shiftByte` is the byte-refill arm of `GET_BITS`.
* `feed` is one call of `BZ2_decompress`: it iterates `exec1`/`shiftByte`
  (fuel-indexed, since the C loop structure is not structurally recursive),
  consuming input bytes from a list, until the function returns.  A return
  caused by input exhaustion inside `GET_BITS` is distinguished as
  `Res.suspended`; the C function reports it as the result code `BZ_OK`
  (`retOfRes` maps our result back to the C return code).

Code of the repository that `decompress.c` uses but that is not part of the
three source files (the `bzlib_private.h` macros `SET_LL`/`GET_LL`,
`BZ_GET_FAST`/`BZ_GET_SMALL`, the randomisation table, and
`BZ2_hbCreateDecodeTables` from `huffman.c`) is modelled from the
specification; each such definition carries a `Modelled from the spec:` doc
comment.  Allocation (`BZALLOC`) is modelled as always succeeding, so the
`BZ_MEM_ERROR` path is not exercised by the model.
-/

namespace Bzip2

/-- Constants from `bzlib_private.h` / the wire format (values as stated in the
specification: group size 50, at most 18002 retained selectors, alphabet at most
256 + 2 symbols, 6 Huffman groups, 4096-byte MTF array in 16-byte blocks). -/
def BZ_RUNA : Nat := 0

def BZ_RUNB : Nat := 1

def BZ_G_SIZE : Nat := 50

def BZ_MAX_SELECTORS : Nat := 18002

def BZ_MAX_ALPHA_SIZE : Nat := 258

def BZ_N_GROUPS : Nat := 6

def MTFA_SIZE : Nat := 4096

def MTFL_SIZE : Nat := 16

/-- Result codes of `BZ2_decompress` (subset of `bzlib.h` that the function can
return; `assertFail` stands for the `AssertH` abort on a call in the
`BZ_X_OUTPUT`/`BZ_X_IDLE` states, which the library driver never performs). -/
inductive RetCode where
  | ok
  | streamEnd
  | dataError
  | dataErrorMagic
  | memError
  | assertFail
deriving DecidableEq, Repr

/-- The `BZ_X_*` parser states: one per `GET_BITS` label, plus the two states
`BZ_X_OUTPUT` and `BZ_X_IDLE` in which `BZ2_decompress` itself is never called. -/
inductive XState where
  | idle
  | output
  | magic1
  | magic2
  | magic3
  | magic4
  | blkhdr1
  | blkhdr2
  | blkhdr3
  | blkhdr4
  | blkhdr5
  | blkhdr6
  | bcrc1
  | bcrc2
  | bcrc3
  | bcrc4
  | randbit
  | origptr1
  | origptr2
  | origptr3
  | mapping1
  | mapping2
  | selector1
  | selector2
  | selector3
  | coding1
  | coding2
  | coding3
  | mtf1
  | mtf2
  | mtf3
  | mtf4
  | mtf5
  | mtf6
  | endhdr2
  | endhdr3
  | endhdr4
  | endhdr5
  | endhdr6
  | ccrc1
  | ccrc2
  | ccrc3
  | ccrc4
deriving DecidableEq, Repr

/-- An input byte (`*((uint8_t*)(s->strm->next_in))`). -/
abbrev Byte := Fin 256

/-- The machine state: the session (`DState` fields touched by
`BZ2_decompress`, including the `bz_stream` running input total) together with
the function's local variables (the `save_*` area).  Statically sized `DState`
arrays are lists of their C length; `tt`/`ll16`/`ll4` start empty and are
allocated at `BZ_X_MAGIC_4` exactly as in the source. -/
structure M where
  pc : XState
  bsBuff : Nat
  bsLive : Int
  total_in : Nat
  smallDecompress : Bool
  blockSize100k : Nat
  currBlockNo : Nat
  storedBlockCRC : Nat
  storedCombinedCRC : Nat
  calculatedBlockCRC : Nat
  blockRandomised : Nat
  origPtr : Int
  inUse16 : List Bool
  inUse : List Bool
  nInUse : Nat
  seqToUnseq : List Nat
  mtfa : List Nat
  mtfbase : List Nat
  selectorMtf : List Nat
  selector : List Nat
  len : List (List Nat)
  limit : List (List Int)
  base : List (List Int)
  perm : List (List Nat)
  minLens : List Nat
  unzftab : List Int
  cftab : List Int
  cftabCopy : List Int
  ll16 : List Nat
  ll4 : List Nat
  tt : List Nat
  tPos : Nat
  k0 : Nat
  nblock_used : Nat
  state_out_len : Nat
  state_out_ch : Nat
  rNToGo : Nat
  rTPos : Nat
  i : Nat
  j : Nat
  t : Nat
  alphaSize : Nat
  nGroups : Nat
  nSelectors : Nat
  EOB : Nat
  groupNo : Int
  groupPos : Nat
  nextSym : Nat
  nblockMAX : Nat
  nblock : Nat
  es : Int
  N : Int
  curr : Int
  zt : Int
  zn : Nat
  zvec : Nat
  zj : Nat
  gSel : Nat
  gMinlen : Nat
deriving DecidableEq, Repr

/-- Result of one macro step of the machine (`exec1`): either the pending
`GET_BITS` cannot be satisfied and a byte of input is `need`ed, or the segment
up to the next fetch label completes (`next`), or the function returns
(`RETURN(rrr)` — `goto save_state_and_return`). -/
inductive Step where
  | need
  | next (m : M)
  | ret (m : M) (c : RetCode)
deriving DecidableEq, Repr

/-- Number of bits the `GET_BITS` at the current label requests (the `nnn`
argument at each `case`); the three `GET_MTF_VAL` entry fetches request `zn`
bits. -/
def widthOf (m : M) : Nat :=
  match m.pc with
  | .idle => 0
  | .output => 0
  | .magic1 => 8
  | .magic2 => 8
  | .magic3 => 8
  | .magic4 => 8
  | .blkhdr1 => 8
  | .blkhdr2 => 8
  | .blkhdr3 => 8
  | .blkhdr4 => 8
  | .blkhdr5 => 8
  | .blkhdr6 => 8
  | .bcrc1 => 8
  | .bcrc2 => 8
  | .bcrc3 => 8
  | .bcrc4 => 8
  | .randbit => 1
  | .origptr1 => 8
  | .origptr2 => 8
  | .origptr3 => 8
  | .mapping1 => 1
  | .mapping2 => 1
  | .selector1 => 3
  | .selector2 => 15
  | .selector3 => 1
  | .coding1 => 5
  | .coding2 => 1
  | .coding3 => 1
  | .mtf1 => m.zn
  | .mtf2 => 1
  | .mtf3 => m.zn
  | .mtf4 => 1
  | .mtf5 => m.zn
  | .mtf6 => 1
  | .endhdr2 => 8
  | .endhdr3 => 8
  | .endhdr4 => 8
  | .endhdr5 => 8
  | .endhdr6 => 8
  | .ccrc1 => 8
  | .ccrc2 => 8
  | .ccrc3 => 8
  | .ccrc4 => 8

/-- The byte-refill arm of `GET_BITS`: `bsBuff = (bsBuff << 8) | *next_in;
bsLive += 8; next_in++; avail_in--; total_in++` (the 32-bit buffer wraps). -/
def shiftByte (m : M) (b : Byte) : M :=
  { m with
    bsBuff := ((m.bsBuff <<< 8) ||| b.val) % 4294967296
    bsLive := m.bsLive + 8
    total_in := m.total_in + 1 }

/-- The bit-extraction arm of `GET_BITS`:
`v = (bsBuff >> (bsLive-n)) & ((1<<n)-1)` (only used when `bsLive >= n`). -/
def bsExtract (bsBuff : Nat) (bsLive : Int) (n : Nat) : Nat :=
  (bsBuff >>> (bsLive - n).toNat) &&& ((1 <<< n) - 1)

end Bzip2

namespace Bzip2

/-! ## Pure pieces of `BZ2_decompress` shared between segments and theorems -/

/-- The map-building helper `makeMaps_d` (decompress.c lines 26-35): scan
`inUse[0..255]`, recording each present symbol in `seqToUnseq` and counting
`nInUse`; entries of `seqToUnseq` beyond `nInUse` keep their old contents. -/
def makeMaps_d (inUse : List Bool) (old : List Nat) : Nat × List Nat :=
  let present := (List.range 256).filter (fun x => inUse.getD x false)
  (present.length, present ++ old.drop present.length)

/-- One iteration of the RUNA/RUNB accumulation loop body (decompress.c lines
386-397): check the guard `N >= 0x200000` (`BZ_DATA_ERROR` when it fires), add
`N` for RUNA or `N << 1` for RUNB to `es`, then double `N`. -/
def runStepPure (sym : Nat) (es N : Int) : Option (Int × Int) :=
  if N ≥ 2097152 then none
  else some (es + (if sym = BZ_RUNA then N else if sym = BZ_RUNB then N * 2 else 0), N * 2)

/-- The accumulation loop folded over a whole run of RUNA/RUNB symbols:
`es = -1; N = 1` before the first symbol, one `runStepPure` per symbol,
`none` as soon as the guard fires. -/
def mtfRunFold : List Nat → Int × Int → Option (Int × Int)
  | [], st => some st
  | s :: ss, (es, N) => match runStepPure s es N with
    | none => none
    | some st => mtfRunFold ss st

/-- The run-flush append loop (decompress.c lines 405-414):
`for (; es > 0; es--) { if (nblock >= nblockMAX) RETURN(BZ_DATA_ERROR);
arr[nblock++] = uc; }`.  Returns the remaining `es`, the final `nblock`, the
updated array and whether the loop completed (`false` = `BZ_DATA_ERROR`). -/
def appendRun (uc : Nat) : Nat → Nat → Nat → List Nat → Int × Nat × List Nat × Bool
  | 0, nb, _, a => (0, nb, a, true)
  | es + 1, nb, mx, a =>
    if nb ≥ mx then ((es : Int) + 1, nb, a, false)
    else appendRun uc es (nb + 1) mx (a.set nb uc)

/-- The MTF front byte `uc = s->seqToUnseq[s->mtfa[s->mtfbase[0]]]`
(decompress.c line 402), the byte a RUNA/RUNB run repeats.  The run-flush
segment `runEmit` (lines 401-414) performs `es++`, reads this byte, adds `es`
to `unzftab[uc]`, then appends `es` copies of `uc` to `ll16` (small mode) or
`tt` (fast mode); a failed capacity check leaves the partially-updated state
behind the `BZ_DATA_ERROR` return (`Sum.inr` = success, `Sum.inl` =
`RETURN(BZ_DATA_ERROR)`). -/
def ucOf (m : M) : Nat :=
  m.seqToUnseq.getD (m.mtfa.getD (m.mtfbase.getD 0 0) 0) 0

/-- The run-flush segment (decompress.c lines 401-414) continued: see
`runEmit`. -/
def runEmit (m : M) : M ⊕ M :=
  let es := m.es + 1
  let uc := ucOf m
  let m1 := { m with es := es,
                     unzftab := m.unzftab.set uc (m.unzftab.getD uc 0 + es) }
  if m1.smallDecompress then
    match appendRun uc es.toNat m1.nblock m1.nblockMAX m1.ll16 with
    | (esr, nb, a, okFlag) =>
      if okFlag then .inr { m1 with es := esr, nblock := nb, ll16 := a }
      else .inl { m1 with es := esr, nblock := nb, ll16 := a }
  else
    match appendRun uc es.toNat m1.nblock m1.nblockMAX m1.tt with
    | (esr, nb, a, okFlag) =>
      if okFlag then .inr { m1 with es := esr, nblock := nb, tt := a }
      else .inl { m1 with es := esr, nblock := nb, tt := a }

/-- The `GET_MTF_VAL` preamble (decompress.c lines 73-85): every 50th symbol
advance `groupNo`, fail with `BZ_DATA_ERROR` when the selectors are exhausted
(`groupNo >= nSelectors`), otherwise reload the group (`gSel`, `gMinlen`; the C
code also caches the `gLimit`/`gBase`/`gPerm` pointers, which the model
represents by indexing with `gSel`); then `groupPos--`. -/
def getMtfPre (m : M) : Option M :=
  if m.groupPos = 0 then
    let gNo := m.groupNo + 1
    if gNo ≥ (m.nSelectors : Int) then none
    else
      let gSel := m.selector.getD gNo.toNat 0
      some { m with groupNo := gNo, groupPos := BZ_G_SIZE - 1, gSel := gSel,
                    gMinlen := m.minLens.getD gSel 0 }
  else some { m with groupPos := m.groupPos - 1 }

/-- Transition into a `GET_MTF_VAL` entry fetch: run the preamble, set
`zn = gMinlen` and move to the `zn`-bit fetch label (`BZ_X_MTF_1/3/5`).  On a
preamble failure the parser state stays at the label being executed, exactly as
`RETURN` does. -/
def toMtfFetch (pcTarget : XState) (m : M) : Step :=
  match getMtfPre m with
  | none => .ret m .dataError
  | some m1 => .next { m1 with zn := m1.gMinlen, pc := pcTarget }

/-- One MTF-undo step for the selectors (decompress.c lines 309-315):
`tmp = pos[v]; memmove(&pos[1], pos, v); pos[0] = tmp`. -/
def selUndoStep (pos : List Nat) (v : Nat) : Nat × List Nat :=
  let tmp := pos.getD v 0
  (tmp, tmp :: (pos.take v ++ pos.drop (v + 1)))

/-- The selector MTF-undo loop (decompress.c lines 305-316) over the retained
`selectorMtf` prefix; emits `selector[i] = tmp` per step. -/
def selUndo (pos : List Nat) : List Nat → List Nat
  | [] => []
  | v :: vs =>
    let s := selUndoStep pos v
    s.1 :: selUndo s.2 vs

/-- The `memmove(&mtfa[pp+1], &mtfa[pp], n)` shift: positions
`pp+1 .. pp+n` receive the old `pp .. pp+n-1`. -/
def memmoveUp (a : List Nat) (pp n : Nat) : List Nat :=
  a.take (pp + 1) ++ (a.drop pp).take n ++ a.drop (pp + 1 + n)

/-- Inner loop of the MTF-array rebuild (decompress.c lines 365-371 and the
compaction at 446-452): for `jj = MTFL_SIZE-1 .. 0`, write the value delivered
by `src jj` at `kk` and decrement `kk`. -/
def mtfFillInner (src : Nat → Nat) : Nat → Nat → List Nat → List Nat × Nat
  | 0, kk, a => (a, kk)
  | jj + 1, kk, a => mtfFillInner src jj (kk - 1) (a.set kk (src jj))

/-- Outer loop of the MTF init (decompress.c lines 362-373): for
`ii = 15 .. 0` fill one 16-byte block with the symbols `ii*16 + jj` and record
`mtfbase[ii] = kk + 1`. -/
def mtfInitOuter : Nat → Nat → List Nat → List Nat → List Nat × List Nat
  | 0, _, a, base => (a, base)
  | ii + 1, kk, a, base =>
    match mtfFillInner (fun jj => ii * MTFL_SIZE + jj) MTFL_SIZE kk a with
    | (a1, kk1) => mtfInitOuter ii kk1 a1 (base.set ii (kk1 + 1))

/-- Outer loop of the MTF-array compaction (decompress.c lines 445-453),
triggered when `mtfbase[0]` reaches 0: copy each block back to the tail of
`mtfa` (reading the array as already partially rewritten, like the C code). -/
def mtfCompactOuter : Nat → Nat → List Nat → List Nat → List Nat × List Nat
  | 0, _, a, base => (a, base)
  | ii + 1, kk, a, base =>
    match mtfFillInner (fun jj => a.getD (base.getD ii 0 + jj) 0) MTFL_SIZE kk a with
    | (a1, kk1) => mtfCompactOuter ii kk1 a1 (base.set ii (kk1 + 1))

/-- The cross-block promotion loop of the general MTF access (decompress.c
lines 441-443): `for (; lno > 0; lno--)
mtfa[--mtfbase[lno]] = mtfa[mtfbase[lno-1] + MTFL_SIZE - 1]`. -/
def mtfShiftBlocks : Nat → List Nat → List Nat → List Nat × List Nat
  | 0, a, base => (a, base)
  | lno + 1, a, base =>
    let nb := base.getD (lno + 1) 0 - 1
    let a1 := a.set nb (a.getD (base.getD lno 0 + MTFL_SIZE - 1) 0)
    mtfShiftBlocks lno a1 (base.set (lno + 1) nb)

/-- The MTF-buffer access `uc = MTF(nextSym - 1)` (decompress.c lines
423-455): fast path inside the front block, general path with block promotion
and, when the front index reaches 0, full compaction. -/
def mtfGet (m : M) (nn : Nat) : Nat × M :=
  if nn < MTFL_SIZE then
    let pp := m.mtfbase.getD 0 0
    let uc := m.mtfa.getD (pp + nn) 0
    let a := (memmoveUp m.mtfa pp nn).set pp uc
    (uc, { m with mtfa := a })
  else
    let lno := nn / MTFL_SIZE
    let off := nn % MTFL_SIZE
    let pp := m.mtfbase.getD lno 0
    let uc := m.mtfa.getD (pp + off) 0
    let a1 := memmoveUp m.mtfa pp off
    let base1 := m.mtfbase.set lno (pp + 1)
    match mtfShiftBlocks lno a1 base1 with
    | (a2, base2) =>
      let b0 := base2.getD 0 0 - 1
      let a3 := a2.set b0 uc
      let base3 := base2.set 0 b0
      if b0 = 0 then
        match mtfCompactOuter 16 (MTFA_SIZE - 1) a3 base3 with
        | (a4, base4) => (uc, { m with mtfa := a4, mtfbase := base4 })
      else (uc, { m with mtfa := a3, mtfbase := base3 })

end Bzip2

namespace Bzip2

/-! ## Pieces of the repository outside `src/`, modelled from the spec -/

/-- Modelled from the spec: `BZ2_hbCreateDecodeTables` lives in `huffman.c`,
which is not among the source files; spec section 4.3 describes it: "for each
length ascending assign the symbols of that length consecutive codes; base of a
length = its first code minus the running symbol count; limit of a length = its
last code", with the code of the next length starting at twice the position
after the last code.  Returns `(limit, base, perm)`. -/
def hbCreateDecodeTables (row : List Nat) (minLen maxLen alphaSize : Nat) :
    List Int × List Int × List Nat :=
  let lengths := (List.range (maxLen + 1 - minLen)).map (fun k => k + minLen)
  let perm := lengths.flatMap
    (fun l => (List.range alphaSize).filter (fun s => row.getD s 0 = l))
  let build := lengths.foldl
    (fun (st : Int × Int × List Int × List Int) l =>
      match st with
      | (vec, cnt, lim, bas) =>
        let n : Int := ((List.range alphaSize).filter (fun s => row.getD s 0 = l)).length
        ((vec + n) * 2, cnt + n, lim.set l (vec + n - 1), bas.set l (vec - cnt)))
    (0, 0, List.replicate 23 0, List.replicate 23 0)
  (build.2.2.1, build.2.2.2, perm)

/-- Modelled from the spec: `GET_LL` (`bzlib_private.h`, not among the source
files); spec section 4.6: the logical 20-bit cell at `i` is `ll16[i]` (low 16
bits) plus one nibble of `ll4[i >> 1]` (high 4 bits). -/
def getLL (ll16 ll4 : List Nat) (i : Nat) : Nat :=
  ll16.getD i 0 ||| (((ll4.getD (i / 2) 0 >>> (if i % 2 = 0 then 0 else 4)) &&& 15) <<< 16)

/-- Modelled from the spec: `SET_LL` (`bzlib_private.h`, not among the source
files); spec section 4.6: write `v & 0xFFFF` to `ll16[i]` and the high 4 bits
of `v` to one nibble of `ll4[i >> 1]`. -/
def setLL (ll16 ll4 : List Nat) (i v : Nat) : List Nat × List Nat :=
  let old := ll4.getD (i / 2) 0
  let nib := (v >>> 16) &&& 15
  let upd := if i % 2 = 0 then (old &&& 240) ||| nib else (old &&& 15) ||| (nib <<< 4)
  (ll16.set i (v &&& 65535), ll4.set (i / 2) upd)

/-- Modelled from the spec: the 512-entry randomisation table (`randtable.c`,
not among the source files).  The spec says only "a fixed 512-entry table of
small odd integers, sequence (R,T) as in the reference" without listing the
values, and no claim depends on them, so a fixed small odd integer stands in
for every entry. -/
def bzRNums (k : Nat) : Nat := 7 + 0 * k

/-- Modelled from the spec: `BZ_RAND_UPD_MASK` plus `BZ_RAND_MASK`
(`bzlib_private.h`, not among the source files); spec section 4.7: every Nth
source byte, with N drawn from the 512-entry table, is XORed with 1.  Returns
the mask together with the updated `(rNToGo, rTPos)` pair. -/
def bzRandUpd (rNToGo rTPos : Nat) : Nat × Nat × Nat :=
  let p := if rNToGo = 0 then (bzRNums rTPos, (rTPos + 1) % 512) else (rNToGo, rTPos)
  let n1 := p.1 - 1
  ((if n1 = 1 then 1 else 0), n1, p.2)

/-- Modelled from the spec: `BZ_GET_FAST` (`bzlib_private.h`, not among the
source files); spec section 4.6: the emitted byte is `tt[tPos] & 0xFF` and the
next position is `tt[tPos] >> 8`. -/
def bzGetFast (tt : List Nat) (tPos : Nat) : Nat × Nat :=
  (tt.getD tPos 0 &&& 255, tt.getD tPos 0 >>> 8)

/-- Modelled from the spec: `BZ_GET_SMALL` (`bzlib_private.h`, not among the
source files); spec section 4.6: the emitted byte is `ll16[tPos] & 0xFF` and
the next position is `GET_LL(tPos)`. -/
def bzGetSmall (ll16 ll4 : List Nat) (tPos : Nat) : Nat × Nat :=
  (ll16.getD tPos 0 &&& 255, getLL ll16 ll4 tPos)

/-! ## The end-of-block segment (decompress.c lines 469-559) -/

/-- In-place prefix summation `for (i = 1; i <= 256; i++) cftab[i] += cftab[i-1]`
over the 257-entry `cftab` (decompress.c line 484). -/
def cumulate (acc : Int) : List Int → List Int
  | [] => []
  | x :: xs => (acc + x) :: cumulate (acc + x) xs

/-- The fast-mode `T^(-1)` construction (decompress.c lines 541-545):
`for (i = 0; i < nblock; i++) { uc = tt[i] & 0xff;
tt[cftab[uc]] |= (i << 8); cftab[uc]++; }` (first argument is the remaining
iteration count). -/
def bwtFastPass : Nat → Nat → List Nat → List Int → List Nat × List Int
  | 0, _, tt, cf => (tt, cf)
  | k + 1, idx, tt, cf =>
    let uc := tt.getD idx 0 &&& 255
    let pos := (cf.getD uc 0).toNat
    let tt1 := tt.set pos (tt.getD pos 0 ||| (idx <<< 8))
    bwtFastPass k (idx + 1) tt1 (cf.set uc (cf.getD uc 0 + 1))

/-- The small-mode `T` construction (decompress.c lines 511-515):
`for (i = 0; i < nblock; i++) { uc = (uint8_t)(ll16[i]);
SET_LL(i, cftabCopy[uc]); cftabCopy[uc]++; }`. -/
def bwtSmallPass : Nat → Nat → List Nat → List Nat → List Int →
    List Nat × List Nat × List Int
  | 0, _, l16, l4, cf => (l16, l4, cf)
  | k + 1, idx, l16, l4, cf =>
    let uc := l16.getD idx 0 % 256
    let v := (cf.getD uc 0).toNat
    match setLL l16 l4 idx v with
    | (l16a, l4a) => bwtSmallPass k (idx + 1) l16a l4a (cf.set uc (cf.getD uc 0 + 1))

/-- The small-mode pointer-reversal loop (decompress.c lines 518-526):
`do { tmp = GET_LL(j); SET_LL(j, i); i = j; j = tmp; } while (i != origPtr)`.
The fuel argument bounds the walk; the C loop terminates because the `T`
vector built from a validated `cftab` is a permutation, so a fuel of
`nblock + 1` is never exhausted on states the parser can reach. -/
def smallRevLoop (orig : Nat) : Nat → Nat → Nat → List Nat → List Nat →
    List Nat × List Nat
  | 0, _, _, l16, l4 => (l16, l4)
  | fuel + 1, idx, jdx, l16, l4 =>
    let tmp := getLL l16 l4 jdx
    match setLL l16 l4 jdx idx with
    | (l16a, l4a) =>
      if jdx = orig then (l16a, l4a)
      else smallRevLoop orig fuel jdx tmp l16a l4a

/-- The segment run when the EOB symbol arrives (decompress.c lines 469-559):
final `origPtr` check, `unzftab` range checks, `cftab` construction and checks,
output-state initialisation, the BWT inversion set-up for the selected mode,
the initial `k0` fetch, and `RETURN(BZ_OK)` with `state = BZ_X_OUTPUT`. -/
def segEndOfBlock (m : M) : Step :=
  if m.origPtr < 0 ∨ m.origPtr ≥ (m.nblock : Int) then .ret m .dataError
  else if (List.range 256).any (fun x =>
      decide (m.unzftab.getD x 0 < 0) || decide ((m.nblock : Int) < m.unzftab.getD x 0)) then
    .ret m .dataError
  else
    let cf := 0 :: cumulate 0 ((List.range 256).map (fun x => m.unzftab.getD x 0))
    if (List.range 257).any (fun x =>
        decide (cf.getD x 0 < 0) || decide ((m.nblock : Int) < cf.getD x 0)) then
      .ret { m with cftab := cf } .dataError
    else if (List.range 256).any (fun x => decide (cf.getD (x + 1) 0 < cf.getD x 0)) then
      .ret { m with cftab := cf } .dataError
    else
      let m1 := { m with cftab := cf, state_out_len := 0, state_out_ch := 0,
                         calculatedBlockCRC := 4294967295, pc := .output }
      if m1.smallDecompress then
        let cfc := cf.take 256
        match bwtSmallPass m1.nblock 0 m1.ll16 m1.ll4 cfc with
        | (l16a, l4a, cfc1) =>
          let j0 := getLL l16a l4a m1.origPtr.toNat
          match smallRevLoop m1.origPtr.toNat (m1.nblock + 1) m1.origPtr.toNat j0 l16a l4a with
          | (l16b, l4b) =>
            let m2 := { m1 with cftabCopy := cfc1, ll16 := l16b, ll4 := l4b,
                                tPos := m1.origPtr.toNat, nblock_used := 0 }
            if m2.blockRandomised ≠ 0 then
              match bzGetSmall m2.ll16 m2.ll4 m2.tPos with
              | (c, tp) =>
                match bzRandUpd 0 0 with
                | (mask, rN, rT) =>
                  .ret { m2 with k0 := c ^^^ mask, tPos := tp, nblock_used := 1,
                                 rNToGo := rN, rTPos := rT } .ok
            else
              match bzGetSmall m2.ll16 m2.ll4 m2.tPos with
              | (c, tp) => .ret { m2 with k0 := c, tPos := tp, nblock_used := 1 } .ok
      else
        match bwtFastPass m1.nblock 0 m1.tt m1.cftab with
        | (tta, cfa) =>
          let m2 := { m1 with tt := tta, cftab := cfa,
                              tPos := tta.getD m1.origPtr.toNat 0 >>> 8, nblock_used := 0 }
          if m2.blockRandomised ≠ 0 then
            match bzGetFast m2.tt m2.tPos with
            | (c, tp) =>
              match bzRandUpd 0 0 with
              | (mask, rN, rT) =>
                .ret { m2 with k0 := c ^^^ mask, tPos := tp, nblock_used := 1,
                               rNToGo := rN, rTPos := rT } .ok
          else
            match bzGetFast m2.tt m2.tPos with
            | (c, tp) => .ret { m2 with k0 := c, tPos := tp, nblock_used := 1 } .ok

end Bzip2

namespace Bzip2

/-! ## The remaining segments of `BZ2_decompress` -/

/-- Segment after the `BZ_X_MAGIC_1` fetch (line 195): the first magic octet
must be `BZ_HDR_B` = 0x42. -/
def segMagic1 (m : M) (v : Nat) : Step :=
  if v ≠ 66 then .ret m .dataErrorMagic else .next { m with pc := .magic2 }

/-- Segment after `BZ_X_MAGIC_2` (line 198): second octet `BZ_HDR_Z` = 0x5A. -/
def segMagic2 (m : M) (v : Nat) : Step :=
  if v ≠ 90 then .ret m .dataErrorMagic else .next { m with pc := .magic3 }

/-- Segment after `BZ_X_MAGIC_3` (line 201): third octet `BZ_HDR_h` = 0x68. -/
def segMagic3 (m : M) (v : Nat) : Step :=
  if v ≠ 104 then .ret m .dataErrorMagic else .next { m with pc := .magic4 }

/-- Segment after `BZ_X_MAGIC_4` (lines 204-216): the level octet must be
`'0'+1 .. '0'+9`; on success subtract `'0'` and allocate the block-sized
arrays for the selected mode (allocation modelled as always succeeding). -/
def segMagic4 (m : M) (v : Nat) : Step :=
  let m1 := { m with blockSize100k := v }
  if v < 49 ∨ v > 57 then .ret m1 .dataErrorMagic
  else
    let bs := v - 48
    let m2 := { m1 with blockSize100k := bs }
    let m3 :=
      if m2.smallDecompress then
        { m2 with ll16 := List.replicate (bs * 100000) 0,
                  ll4 := List.replicate ((1 + bs * 100000) / 2) 0 }
      else { m2 with tt := List.replicate (bs * 100000) 0 }
    .next { m3 with pc := .blkhdr1 }

/-- Segment after `BZ_X_BLKHDR_1` (lines 218-221): 0x17 opens the stream
trailer, 0x31 a block, anything else is a data error. -/
def segBlkhdr1 (m : M) (v : Nat) : Step :=
  if v = 23 then .next { m with pc := .endhdr2 }
  else if v ≠ 49 then .ret m .dataError
  else .next { m with pc := .blkhdr2 }

/-- Segment after `BZ_X_BLKHDR_2` (line 222): octet 0x41. -/
def segBlkhdr2 (m : M) (v : Nat) : Step :=
  if v ≠ 65 then .ret m .dataError else .next { m with pc := .blkhdr3 }

/-- Segment after `BZ_X_BLKHDR_3` (line 224): octet 0x59. -/
def segBlkhdr3 (m : M) (v : Nat) : Step :=
  if v ≠ 89 then .ret m .dataError else .next { m with pc := .blkhdr4 }

/-- Segment after `BZ_X_BLKHDR_4` (line 226): octet 0x26. -/
def segBlkhdr4 (m : M) (v : Nat) : Step :=
  if v ≠ 38 then .ret m .dataError else .next { m with pc := .blkhdr5 }

/-- Segment after `BZ_X_BLKHDR_5` (line 228): octet 0x53. -/
def segBlkhdr5 (m : M) (v : Nat) : Step :=
  if v ≠ 83 then .ret m .dataError else .next { m with pc := .blkhdr6 }

/-- Segment after `BZ_X_BLKHDR_6` (lines 230-237): octet 0x59, then open the
block (`currBlockNo++`, clear `storedBlockCRC`). -/
def segBlkhdr6 (m : M) (v : Nat) : Step :=
  if v ≠ 89 then .ret m .dataError
  else .next { m with currBlockNo := m.currBlockNo + 1, storedBlockCRC := 0, pc := .bcrc1 }

/-- Segments after `BZ_X_BCRC_1..4` (lines 238-245): shift each octet into the
stored block CRC. -/
def segBcrc (next : XState) (m : M) (v : Nat) : Step :=
  .next { m with storedBlockCRC := ((m.storedBlockCRC <<< 8) ||| v) % 4294967296,
                 pc := next }

/-- Segment after `BZ_X_RANDBIT` (lines 247-249): store the randomised flag
and clear `origPtr`. -/
def segRandbit (m : M) (v : Nat) : Step :=
  .next { m with blockRandomised := v, origPtr := 0, pc := .origptr1 }

/-- Segments after `BZ_X_ORIGPTR_1/2` (lines 250-253): shift an octet into
`origPtr`. -/
def segOrigPtrShift (next : XState) (m : M) (v : Nat) : Step :=
  .next { m with origPtr := m.origPtr * 256 + v, pc := next }

/-- Segment after `BZ_X_ORIGPTR_3` (lines 254-263): complete `origPtr` and
range-check it against `10 + 100000*blockSize100k`; then enter the mapping
loop with `i = 0`. -/
def segOrigPtr3 (m : M) (v : Nat) : Step :=
  let p : Int := m.origPtr * 256 + v
  if p < 0 then .ret { m with origPtr := p } .dataError
  else if p > 10 + 100000 * (m.blockSize100k : Int) then .ret { m with origPtr := p } .dataError
  else .next { m with origPtr := p, i := 0, pc := .mapping1 }

/-- End of the mapping phase (lines 278-280): run `makeMaps_d`; an empty
used-symbol list is a data error; otherwise `alphaSize = nInUse + 2` and the
selectors follow. -/
def mappingFinish (m : M) : Step :=
  match makeMaps_d m.inUse m.seqToUnseq with
  | (nI, seq) =>
    if nI = 0 then .ret { m with nInUse := nI, seqToUnseq := seq } .dataError
    else .next { m with nInUse := nI, seqToUnseq := seq, alphaSize := nI + 2,
                        pc := .selector1 }

/-- Scan of the outer mapping loop (lines 270-277): advance `i` to the next
set bit of `inUse16`, entering the 16-bit inner loop there, or finish the
mapping when none remains (the fuel is `16 - i`). -/
def mappingScanAux : Nat → M → Step
  | 0, m => mappingFinish m
  | k + 1, m =>
    if m.inUse16.getD m.i false then .next { m with j := 0, pc := .mapping2 }
    else mappingScanAux k { m with i := m.i + 1 }

/-- Entry point of the outer mapping scan at the current `i`. -/
def mappingScan (m : M) : Step :=
  mappingScanAux (16 - m.i) m

/-- Segment after `BZ_X_MAPPING_1` (lines 263-266): store one `inUse16` bit;
after the sixteenth, clear `inUse` and start the second loop at `i = 0`. -/
def segMapping1 (m : M) (v : Nat) : Step :=
  let m1 := { m with inUse16 := m.inUse16.set m.i (v == 1) }
  if m1.i + 1 < 16 then .next { m1 with i := m1.i + 1, pc := .mapping1 }
  else mappingScan { m1 with inUse := List.replicate 256 false, i := 0 }

/-- Segment after `BZ_X_MAPPING_2` (lines 273-276): record one member bit of
the current 16-symbol chunk, then the next bit of the chunk or the next
chunk. -/
def segMapping2 (m : M) (v : Nat) : Step :=
  let m1 := if v == 1 then { m with inUse := m.inUse.set ((m.i <<< 4) + m.j) true } else m
  if m1.j + 1 < 16 then .next { m1 with j := m1.j + 1, pc := .mapping2 }
  else mappingScan { m1 with j := m1.j + 1, i := m1.i + 1 }

/-- Segment after `BZ_X_SELECTOR_1` (lines 283-284): `nGroups` must lie in
`[2, BZ_N_GROUPS]`. -/
def segSelector1 (m : M) (v : Nat) : Step :=
  if v < 2 ∨ v > BZ_N_GROUPS then .ret { m with nGroups := v } .dataError
  else .next { m with nGroups := v, pc := .selector2 }

/-- Segment after `BZ_X_SELECTOR_2` (lines 285-288): `nSelectors >= 1`; enter
the selector loop with `i = 0`, `j = 0`. -/
def segSelector2 (m : M) (v : Nat) : Step :=
  if v < 1 then .ret { m with nSelectors := v } .dataError
  else .next { m with nSelectors := v, i := 0, j := 0, pc := .selector3 }

/-- End of the selector-reading loop (lines 301-316): clamp `nSelectors` to
`BZ_MAX_SELECTORS` and inverse-MTF the retained `selectorMtf` prefix into
`selector`; then the coding tables follow with `t = 0`. -/
def selectorsDone (m : M) : Step :=
  let nSel := min m.nSelectors BZ_MAX_SELECTORS
  let sel := selUndo (List.range m.nGroups) (m.selectorMtf.take nSel)
  .next { m with nSelectors := nSel, selector := sel ++ m.selector.drop nSel,
                 t := 0, pc := .coding1 }

/-- Segment after `BZ_X_SELECTOR_3` (lines 289-300): a 1-bit extends the unary
code (`j++`, data error at `nGroups`); a 0-bit terminates it, storing `j` into
`selectorMtf` only for positions below `BZ_MAX_SELECTORS`. -/
def segSelector3 (m : M) (v : Nat) : Step :=
  if v = 0 then
    let m1 :=
      if m.i < BZ_MAX_SELECTORS then { m with selectorMtf := m.selectorMtf.set m.i m.j }
      else m
    if m1.i + 1 < m1.nSelectors then .next { m1 with i := m1.i + 1, j := 0, pc := .selector3 }
    else selectorsDone { m1 with i := m1.i + 1 }
  else
    if m.j + 1 ≥ m.nGroups then .ret { m with j := m.j + 1 } .dataError
    else .next { m with j := m.j + 1, pc := .selector3 }

/-- Top of the per-symbol delta loop of the coding tables (line 323): the
current length must lie in `[1, 20]` before every adjustment bit is read. -/
def codingLoopTop (m : M) : Step :=
  if m.curr < 1 ∨ m.curr > 20 then .ret m .dataError
  else .next { m with pc := .coding2 }

/-- Table construction for one group (decompress.c lines 334-350): compute
`minLen`/`maxLen` over the group's lengths and call the table builder,
recording `minLens[t]`. -/
def buildOneTable (m : M) (tg : Nat) : M :=
  let mm := (List.range m.alphaSize).foldl
    (fun (p : Nat × Nat) s =>
      let target := (m.len.getD tg []).getD s 0
      (if target < p.1 then target else p.1, if target > p.2 then target else p.2))
    (32, 0)
  match hbCreateDecodeTables (m.len.getD tg []) mm.1 mm.2 m.alphaSize with
  | (lim, bas, per) =>
    { m with limit := m.limit.set tg lim, base := m.base.set tg bas,
             perm := m.perm.set tg per, minLens := m.minLens.set tg mm.1 }

/-- The table-construction loop over all groups (lines 334-350). -/
def buildAllTables (m : M) : M :=
  (List.range m.nGroups).foldl buildOneTable m

/-- The straight-line block between the coding tables and the first
`GET_MTF_VAL` (lines 334-376): build the decode tables, initialise the MTF
machinery, `EOB`, `nblockMAX`, `groupNo = -1`, `groupPos = 0`, clear
`unzftab`, `nblock = 0`, and enter the first symbol fetch. -/
def afterCoding (m : M) : Step :=
  let m1 := buildAllTables m
  match mtfInitOuter 16 (MTFA_SIZE - 1) m1.mtfa m1.mtfbase with
  | (a, base) =>
    toMtfFetch .mtf1
      { m1 with EOB := m1.nInUse + 1, nblockMAX := 100000 * m1.blockSize100k,
                groupNo := -1, groupPos := 0,
                unzftab := List.replicate 256 0,
                mtfa := a, mtfbase := base, nblock := 0 }

/-- End of one group's symbol loop (line 319): next group or, after the last,
the post-coding block. -/
def codingGroupDone (m : M) : Step :=
  if m.t + 1 < m.nGroups then .next { m with t := m.t + 1, pc := .coding1 }
  else afterCoding { m with t := m.t + 1 }

/-- The `for (i ...; i < alphaSize; ...)` header of the symbol loop
(line 321). -/
def codingSymLoop (m : M) : Step :=
  if m.i < m.alphaSize then codingLoopTop m else codingGroupDone m

/-- Segment after `BZ_X_CODING_1` (line 320): the 5-bit initial length. -/
def segCoding1 (m : M) (v : Nat) : Step :=
  codingSymLoop { m with curr := v, i := 0 }

/-- Segment after `BZ_X_CODING_2` (lines 324-330): a 0-bit stores the current
length (as a `UChar`) and moves to the next symbol, a 1-bit reads the
direction bit. -/
def segCoding2 (m : M) (v : Nat) : Step :=
  if v = 0 then
    let row := (m.len.getD m.t []).set m.i (m.curr.toNat % 256)
    codingSymLoop { m with len := m.len.set m.t row, i := m.i + 1 }
  else .next { m with pc := .coding3 }

/-- Segment after `BZ_X_CODING_3` (lines 326-327): apply the `+1`/`-1`
adjustment and return to the loop top (whose range check runs before the next
bit is read). -/
def segCoding3 (m : M) (v : Nat) : Step :=
  codingLoopTop { m with curr := if v = 0 then m.curr + 1 else m.curr - 1 }

/-- The RUNA/RUNB arm of the run loop (lines 386-397): one `runStepPure`, then
the next symbol fetch at `BZ_X_MTF_3`. -/
def runBody (m : M) : Step :=
  match runStepPure m.nextSym m.es m.N with
  | none => .ret m .dataError
  | some st => toMtfFetch .mtf3 { m with es := st.1, N := st.2 }

/-- The literal-symbol arm (lines 418-465): capacity check, MTF-buffer access,
`unzftab`/block update, then the next symbol fetch at `BZ_X_MTF_5`. -/
def segLiteral (m : M) : Step :=
  if m.nblock ≥ m.nblockMAX then .ret m .dataError
  else
    match mtfGet m (m.nextSym - 1) with
    | (uc, m1) =>
      let b := m1.seqToUnseq.getD uc 0
      let m2 := { m1 with unzftab := m1.unzftab.set b (m1.unzftab.getD b 0 + 1) }
      let m3 :=
        if m2.smallDecompress then { m2 with ll16 := m2.ll16.set m2.nblock b }
        else { m2 with tt := m2.tt.set m2.nblock b }
      toMtfFetch .mtf5 { m3 with nblock := m3.nblock + 1 }

/-- The dispatch at the top of the symbol loop (lines 378-382): EOB ends the
block, RUNA/RUNB starts a run (`es = -1; N = 1`), anything else is a
literal. -/
def mtfDispatch (m : M) : Step :=
  if m.nextSym = m.EOB then segEndOfBlock m
  else if m.nextSym = BZ_RUNA ∨ m.nextSym = BZ_RUNB then
    runBody { m with es := -1, N := 1 }
  else segLiteral m

/-- Continuation after a symbol fetched inside the run loop (lines 397-416):
another RUN symbol continues the accumulation; anything else flushes the run
(`runEmit`) and is then dispatched. -/
def mtfRunNext (m : M) : Step :=
  if m.nextSym = BZ_RUNA ∨ m.nextSym = BZ_RUNB then runBody m
  else
    match runEmit m with
    | .inl m1 => .ret m1 .dataError
    | .inr m1 => mtfDispatch m1

/-- The 1-bit continuation label of each `GET_MTF_VAL` instance. -/
def bitLabelOf (pair : Nat) : XState :=
  match pair with
  | 0 => .mtf2
  | 1 => .mtf4
  | _ => .mtf6

/-- What happens to a completely decoded symbol: instance 1 (`BZ_X_MTF_3/4`)
feeds the run loop, instances 0 and 2 the dispatch at the loop top. -/
def symCont (pair : Nat) (m : M) : Step :=
  if pair = 1 then mtfRunNext m else mtfDispatch m

/-- The code-refinement loop of `GET_MTF_VAL` (lines 87-98): reject codes
longer than 20 bits, extend `zvec` while it exceeds `limit[zn]`, then range
check `zvec - base[zn]` and read the symbol from `perm`. -/
def huffAfter (pair : Nat) (m : M) : Step :=
  if m.zn > 20 then .ret m .dataError
  else if (m.zvec : Int) ≤ (m.limit.getD m.gSel []).getD m.zn 0 then
    (let d := (m.zvec : Int) - (m.base.getD m.gSel []).getD m.zn 0
     if d < 0 ∨ d ≥ (BZ_MAX_ALPHA_SIZE : Int) then .ret m .dataError
     else symCont pair { m with nextSym := (m.perm.getD m.gSel []).getD d.toNat 0 })
  else .next { m with zn := m.zn + 1, pc := bitLabelOf pair }

/-- Segment after the `BZ_X_MTF_1` fetch (`GET_BITS(label1, zvec, zn)`). -/
def segMtf1 (m : M) (v : Nat) : Step :=
  huffAfter 0 { m with zvec := v }

/-- Segment after a `BZ_X_MTF_2` bit: `zvec = (zvec << 1) | zj`. -/
def segMtf2 (m : M) (v : Nat) : Step :=
  huffAfter 0 { m with zj := v, zvec := (m.zvec <<< 1) ||| v }

/-- Segment after the `BZ_X_MTF_3` fetch. -/
def segMtf3 (m : M) (v : Nat) : Step :=
  huffAfter 1 { m with zvec := v }

/-- Segment after a `BZ_X_MTF_4` bit. -/
def segMtf4 (m : M) (v : Nat) : Step :=
  huffAfter 1 { m with zj := v, zvec := (m.zvec <<< 1) ||| v }

/-- Segment after the `BZ_X_MTF_5` fetch. -/
def segMtf5 (m : M) (v : Nat) : Step :=
  huffAfter 2 { m with zvec := v }

/-- Segment after a `BZ_X_MTF_6` bit. -/
def segMtf6 (m : M) (v : Nat) : Step :=
  huffAfter 2 { m with zj := v, zvec := (m.zvec <<< 1) ||| v }

/-- Segment after `BZ_X_ENDHDR_2` (line 565): octet 0x72. -/
def segEndhdr2 (m : M) (v : Nat) : Step :=
  if v ≠ 114 then .ret m .dataError else .next { m with pc := .endhdr3 }

/-- Segment after `BZ_X_ENDHDR_3` (line 567): octet 0x45. -/
def segEndhdr3 (m : M) (v : Nat) : Step :=
  if v ≠ 69 then .ret m .dataError else .next { m with pc := .endhdr4 }

/-- Segment after `BZ_X_ENDHDR_4` (line 569): octet 0x38. -/
def segEndhdr4 (m : M) (v : Nat) : Step :=
  if v ≠ 56 then .ret m .dataError else .next { m with pc := .endhdr5 }

/-- Segment after `BZ_X_ENDHDR_5` (line 571): octet 0x50. -/
def segEndhdr5 (m : M) (v : Nat) : Step :=
  if v ≠ 80 then .ret m .dataError else .next { m with pc := .endhdr6 }

/-- Segment after `BZ_X_ENDHDR_6` (lines 573-576): octet 0x90, then clear the
stored combined CRC. -/
def segEndhdr6 (m : M) (v : Nat) : Step :=
  if v ≠ 144 then .ret m .dataError
  else .next { m with storedCombinedCRC := 0, pc := .ccrc1 }

/-- Segments after `BZ_X_CCRC_1..3` (lines 577-582): shift an octet into the
stored combined CRC. -/
def segCcrc (next : XState) (m : M) (v : Nat) : Step :=
  .next { m with storedCombinedCRC := ((m.storedCombinedCRC <<< 8) ||| v) % 4294967296,
                 pc := next }

/-- Segment after `BZ_X_CCRC_4` (lines 583-587): complete the combined CRC,
move to `BZ_X_IDLE` and `RETURN(BZ_STREAM_END)`. -/
def segCcrc4 (m : M) (v : Nat) : Step :=
  .ret { m with storedCombinedCRC := ((m.storedCombinedCRC <<< 8) ||| v) % 4294967296,
                pc := .idle } .streamEnd

/-- Dispatch of the per-label segments on the current parser state (the body
of the `switch` between one completed fetch and the next label). -/
def runSeg (m : M) (v : Nat) : Step :=
  match m.pc with
  | .idle => .ret m .assertFail
  | .output => .ret m .assertFail
  | .magic1 => segMagic1 m v
  | .magic2 => segMagic2 m v
  | .magic3 => segMagic3 m v
  | .magic4 => segMagic4 m v
  | .blkhdr1 => segBlkhdr1 m v
  | .blkhdr2 => segBlkhdr2 m v
  | .blkhdr3 => segBlkhdr3 m v
  | .blkhdr4 => segBlkhdr4 m v
  | .blkhdr5 => segBlkhdr5 m v
  | .blkhdr6 => segBlkhdr6 m v
  | .bcrc1 => segBcrc .bcrc2 m v
  | .bcrc2 => segBcrc .bcrc3 m v
  | .bcrc3 => segBcrc .bcrc4 m v
  | .bcrc4 => segBcrc .randbit m v
  | .randbit => segRandbit m v
  | .origptr1 => segOrigPtrShift .origptr2 m v
  | .origptr2 => segOrigPtrShift .origptr3 m v
  | .origptr3 => segOrigPtr3 m v
  | .mapping1 => segMapping1 m v
  | .mapping2 => segMapping2 m v
  | .selector1 => segSelector1 m v
  | .selector2 => segSelector2 m v
  | .selector3 => segSelector3 m v
  | .coding1 => segCoding1 m v
  | .coding2 => segCoding2 m v
  | .coding3 => segCoding3 m v
  | .mtf1 => segMtf1 m v
  | .mtf2 => segMtf2 m v
  | .mtf3 => segMtf3 m v
  | .mtf4 => segMtf4 m v
  | .mtf5 => segMtf5 m v
  | .mtf6 => segMtf6 m v
  | .endhdr2 => segEndhdr2 m v
  | .endhdr3 => segEndhdr3 m v
  | .endhdr4 => segEndhdr4 m v
  | .endhdr5 => segEndhdr5 m v
  | .endhdr6 => segEndhdr6 m v
  | .ccrc1 => segCcrc .ccrc2 m v
  | .ccrc2 => segCcrc .ccrc3 m v
  | .ccrc3 => segCcrc .ccrc4 m v
  | .ccrc4 => segCcrc4 m v

/-- One macro step: in `BZ_X_OUTPUT`/`BZ_X_IDLE` the `switch` hits
`default: AssertH(false, 4001)`; otherwise try to satisfy the pending
`GET_BITS` from the bit buffer (extract, `bsLive -= n`, run the segment), or
report that a byte is needed. -/
def exec1 (m : M) : Step :=
  if m.pc = .output ∨ m.pc = .idle then .ret m .assertFail
  else if m.bsLive ≥ (widthOf m : Int) then
    runSeg { m with bsLive := m.bsLive - widthOf m } (bsExtract m.bsBuff m.bsLive (widthOf m))
  else .need

/-- How one call of `BZ2_decompress` ends: either an explicit `RETURN(c)`, or
the suspension inside `GET_BITS` when `avail_in == 0` (which the C function
reports as `BZ_OK` with the state saved). -/
inductive Res where
  | suspended
  | finished (c : RetCode)
deriving DecidableEq, Repr

/-- The C return code of a result: a suspension returns `BZ_OK`. -/
def retOfRes : Res → RetCode
  | .suspended => .ok
  | .finished c => c

/-- One call of `BZ2_decompress` on a session `m` whose remaining input is
`inp`: iterate macro steps, refilling the bit buffer from `inp` byte by byte,
until the function returns; yields `(final session, unconsumed input, result)`.
The fuel only makes the iteration structurally recursive; `none` means the
bound was too small, never an outcome of the function. -/
def feed : Nat → M → List Byte → Option (M × List Byte × Res)
  | 0, _, _ => none
  | f + 1, m, inp =>
    match exec1 m with
    | .ret m1 c => some (m1, inp, .finished c)
    | .next m1 => feed f m1 inp
    | .need =>
      match inp with
      | [] => some (m, [], .suspended)
      | b :: rest => feed f (shiftByte m b) rest

/-- A fresh session as `BZ2_bzDecompressInit` plus the first-call zeroing of
the save area leaves it (lines 137-163): state `BZ_X_MAGIC_1`, empty bit
buffer, zeroed counters and save fields; C array contents that are never read
before being written are zero here. -/
def initM (small : Bool) : M :=
  { pc := .magic1, bsBuff := 0, bsLive := 0, total_in := 0,
    smallDecompress := small, blockSize100k := 0, currBlockNo := 0,
    storedBlockCRC := 0, storedCombinedCRC := 0, calculatedBlockCRC := 0,
    blockRandomised := 0, origPtr := 0,
    inUse16 := List.replicate 16 false, inUse := List.replicate 256 false,
    nInUse := 0, seqToUnseq := List.replicate 256 0,
    mtfa := List.replicate MTFA_SIZE 0, mtfbase := List.replicate 16 0,
    selectorMtf := List.replicate BZ_MAX_SELECTORS 0,
    selector := List.replicate BZ_MAX_SELECTORS 0,
    len := List.replicate BZ_N_GROUPS (List.replicate BZ_MAX_ALPHA_SIZE 0),
    limit := List.replicate BZ_N_GROUPS (List.replicate BZ_MAX_ALPHA_SIZE 0),
    base := List.replicate BZ_N_GROUPS (List.replicate BZ_MAX_ALPHA_SIZE 0),
    perm := List.replicate BZ_N_GROUPS (List.replicate BZ_MAX_ALPHA_SIZE 0),
    minLens := List.replicate BZ_N_GROUPS 0,
    unzftab := List.replicate 256 0, cftab := List.replicate 257 0,
    cftabCopy := List.replicate 256 0,
    ll16 := [], ll4 := [], tt := [],
    tPos := 0, k0 := 0, nblock_used := 0, state_out_len := 0, state_out_ch := 0,
    rNToGo := 0, rTPos := 0,
    i := 0, j := 0, t := 0, alphaSize := 0, nGroups := 0, nSelectors := 0,
    EOB := 0, groupNo := 0, groupPos := 0, nextSym := 0, nblockMAX := 0,
    nblock := 0, es := 0, N := 0, curr := 0, zt := 0, zn := 0, zvec := 0,
    zj := 0, gSel := 0, gMinlen := 0 }

end Bzip2

namespace Bzip2

/-! ## Splitting the input stream (claims C1, C10) -/

/-- Unfolding of `feed` at positive fuel. -/
theorem feed_succ (f : Nat) (m : M) (inp : List Byte) :
    feed (f + 1) m inp =
      match exec1 m with
      | .ret m1 c => some (m1, inp, .finished c)
      | .next m1 => feed f m1 inp
      | .need =>
        match inp with
        | [] => some (m, [], .suspended)
        | b :: rest => feed f (shiftByte m b) rest := rfl

/-- The fuel of `feed` is only a structural bound: enlarging it never changes
a result that was already reached. -/
theorem feed_mono : ∀ f g : Nat, f ≤ g → ∀ (m : M) (inp : List Byte)
    (r : M × List Byte × Res), feed f m inp = some r → feed g m inp = some r := by
  intro f
  induction f with
  | zero => intro g _ m inp r h; simp [feed] at h
  | succ f ih =>
    intro g hfg m inp r h
    match g, hfg with
    | g + 1, hfg =>
      rw [feed_succ] at h ⊢
      cases hstep : exec1 m with
      | ret m1 c => rw [hstep] at h; exact h
      | next m1 =>
        rw [hstep] at h
        exact ih g (by omega) m1 inp r h
      | need =>
        rw [hstep] at h
        cases inp with
        | nil => exact h
        | cons b rest => exact ih g (by omega) (shiftByte m b) rest r h

/-- A call that returns by an explicit `RETURN` is insensitive to input beyond
the bytes it consumed: appended bytes are simply left unconsumed. -/
theorem feed_append_finished : ∀ (f : Nat) (m m1 : M) (xs ys l : List Byte)
    (c : RetCode), feed f m xs = some (m1, l, .finished c) →
    feed f m (xs ++ ys) = some (m1, l ++ ys, .finished c) := by
  intro f
  induction f with
  | zero => intro m m1 xs ys l c h; simp [feed] at h
  | succ f ih =>
    intro m m1 xs ys l c h
    rw [feed_succ] at h ⊢
    cases hstep : exec1 m with
    | ret m2 c2 =>
      rw [hstep] at h
      simp only [Option.some.injEq, Prod.mk.injEq] at h
      obtain ⟨h1, h2, h3⟩ := h
      cases h3
      subst h1 h2
      rfl
    | next m2 => rw [hstep] at h; exact ih m2 m1 xs ys l c h
    | need =>
      rw [hstep] at h
      cases xs with
      | nil => simp at h
      | cons b rest => exact ih (shiftByte m b) m1 rest ys l c h

/-- A suspended call has consumed its whole input and stands at an
unsatisfiable `GET_BITS`: the returned session is exactly the machine at the
suspension point. -/
theorem feed_suspended_need : ∀ (f : Nat) (m m1 : M) (inp l : List Byte),
    feed f m inp = some (m1, l, .suspended) → exec1 m1 = .need ∧ l = [] := by
  intro f
  induction f with
  | zero => intro m m1 inp l h; simp [feed] at h
  | succ f ih =>
    intro m m1 inp l h
    rw [feed_succ] at h
    cases hstep : exec1 m with
    | ret m2 c2 => rw [hstep] at h; simp at h
    | next m2 => rw [hstep] at h; exact ih m2 m1 inp l h
    | need =>
      rw [hstep] at h
      cases inp with
      | nil =>
        simp only [Option.some.injEq, Prod.mk.injEq] at h
        obtain ⟨h1, h2, _⟩ := h
        subst h1 h2
        exact ⟨hstep, rfl⟩
      | cons b rest => exact ih (shiftByte m b) m1 rest l h

/-- Resuming after a suspension is exact: running the first `k` bytes to
suspension and then the remaining bytes gives the very same result as running
the whole input, with no byte re-read, lost or duplicated. -/
theorem feed_resume_concat : ∀ (f g : Nat) (m m1 : M) (xs ys : List Byte)
    (r : M × List Byte × Res), feed f m xs = some (m1, [], .suspended) →
    feed g m1 ys = some r → feed (f + g) m (xs ++ ys) = some r := by
  intro f
  induction f with
  | zero => intro g m m1 xs ys r h; simp [feed] at h
  | succ f ih =>
    intro g m m1 xs ys r h hg
    rw [feed_succ] at h
    have hfg : f + 1 + g = (f + g) + 1 := by omega
    rw [hfg, feed_succ]
    cases hstep : exec1 m with
    | ret m2 c2 => rw [hstep] at h; simp at h
    | next m2 =>
      rw [hstep] at h
      exact ih g m2 m1 xs ys r h hg
    | need =>
      rw [hstep] at h
      cases xs with
      | nil =>
        simp only [Option.some.injEq, Prod.mk.injEq] at h
        obtain ⟨h1, _, _⟩ := h
        subst h1
        simp only [List.nil_append]
        have hmono : feed ((f + g) + 1) m ys = some r :=
          feed_mono g ((f + g) + 1) (by omega) m ys r hg
        rw [feed_succ, hstep] at hmono
        exact hmono
      | cons b rest =>
        simp only [List.cons_append]
        exact ih g (shiftByte m b) m1 rest ys r h hg

end Bzip2

namespace Bzip2

/-- C1: for every `.bz2` input byte sequence and every split position, feeding
the first piece and then the rest through separate `BZ2_decompress` calls
produces exactly the same final session (hence the same decoded block
contents), the same unconsumed input and the same result as feeding the whole
input in one call.  First conjunct: if the first piece suspends at input
exhaustion (the session saves the complete local state — `M` carries every
`save_*` field — and `Res.suspended` is the `BZ_OK` "need more input" result),
re-entry on the second piece resumes at the same bit fetch and reproduces the
whole-input run exactly, with no byte re-read, lost or duplicated.  Second
conjunct: a call that returns before exhausting its input is unaffected by
appending the rest. -/
theorem c1_split_feed_equivalence :
    (∀ (f g : Nat) (m m1 : M) (xs ys : List Byte) (r : M × List Byte × Res),
       feed f m xs = some (m1, [], .suspended) →
       feed g m1 ys = some r →
       feed (f + g) m (xs ++ ys) = some r)
  ∧ (∀ (f : Nat) (m m1 : M) (xs ys l : List Byte) (c : RetCode),
       feed f m xs = some (m1, l, .finished c) →
       feed f m (xs ++ ys) = some (m1, l ++ ys, .finished c)) :=
  ⟨feed_resume_concat, feed_append_finished⟩

/-- Session after feeding the single byte 0x42 ('B') to a fresh fast-mode
session: suspended at the `BZ_X_MAGIC_2` fetch. -/
def mW1 : M :=
  { initM false with pc := .magic2, bsBuff := 66, bsLive := 0, total_in := 1 }

/-- Session after the second magic byte 0x00 arrives: `BZ_DATA_ERROR_MAGIC`. -/
def mW2 : M :=
  { initM false with pc := .magic2, bsBuff := 16896, bsLive := 0, total_in := 2 }

/-- Witness for C1: the split `[0x42] / [0x00]` of the two-byte input
`[0x42, 0x00]` — the first call suspends after 'B', the resumed call and the
whole-input call agree (both return `BZ_DATA_ERROR_MAGIC` in session `mW2`). -/
theorem c1_split_feed_equivalence_witness :
    feed 3 (initM false) [(66 : Byte)] = some (mW1, [], .suspended) ∧
    feed 3 mW1 [(0 : Byte)] = some (mW2, [], .finished .dataErrorMagic) ∧
    feed (3 + 3) (initM false) ([(66 : Byte)] ++ [(0 : Byte)]) =
      some (mW2, [], .finished .dataErrorMagic) :=
  ⟨rfl, rfl,
   c1_split_feed_equivalence.1 3 3 (initM false) mW1 [(66 : Byte)] [(0 : Byte)]
     (mW2, [], .finished .dataErrorMagic) rfl rfl⟩

/-- C10: a call on a session suspended at a bit fetch with `avail_in == 0`
returns `BZ_OK` and is a no-op: the session (all `save_*` fields, the parser
state, `bsBuff`, `bsLive` and the `total_in` counter are fields of `M`) is
returned unchanged, no input is consumed and no output is produced. -/
theorem c10_no_input_noop :
    ∀ (f g : Nat) (mPrev m : M) (inp : List Byte),
      feed f mPrev inp = some (m, [], .suspended) →
      feed (g + 1) m [] = some (m, [], .suspended) ∧ retOfRes .suspended = .ok := by
  intro f g mPrev m inp h
  obtain ⟨hneed, -⟩ := feed_suspended_need f mPrev m inp [] h
  constructor
  · rw [feed_succ, hneed]
  · rfl

/-- Witness for C10: a fresh session fed no input suspends at once; a further
call with no input returns it unchanged. -/
theorem c10_no_input_noop_witness :
    feed 1 (initM false) [] = some (initM false, [], .suspended) ∧
    feed (0 + 1) (initM false) [] = some (initM false, [], .suspended) ∧
    retOfRes .suspended = .ok :=
  ⟨rfl,
   (c10_no_input_noop 1 0 (initM false) (initM false) [] rfl).1,
   (c10_no_input_noop 1 0 (initM false) (initM false) [] rfl).2⟩

end Bzip2

namespace Bzip2

/-! ## The 64-bit composer of the command-line driver (claim C7) -/

/-- The byte-totals composer `uInt64_from_UInt32s` (bzip2.c lines 193-197):
`*n = ((uint64_t)hi32 << 32) & (uint64_t)lo32`.  For `hi32 < 2^32` the
shift cannot wrap in `uint64_t`, and the AND with `lo32` only clears bits, so
no reduction mod `2^64` is needed.  The decompressor state machine (`feed` and
its segments) never calls this function: it feeds only the printed
statistics. -/
def uInt64_from_UInt32s (lo32 hi32 : Nat) : Nat :=
  (hi32 <<< 32) &&& lo32

/-- C7: the composer uses a bitwise AND where an OR was intended, so for every
32-bit pair its result is `(hi32 << 32) & lo32` — in fact always 0, hence 0
whenever `hi32` or `lo32` is 0 — and differs from the intended
`hi32 * 2^32 + lo32` whenever that value is nonzero. -/
theorem c7_uInt64_composer_and_bug :
    ∀ lo32 hi32 : Nat, lo32 < 4294967296 →
      uInt64_from_UInt32s lo32 hi32 = (hi32 <<< 32) &&& lo32 ∧
      uInt64_from_UInt32s lo32 hi32 = 0 ∧
      ((lo32 = 0 ∨ hi32 = 0) → uInt64_from_UInt32s lo32 hi32 = 0) ∧
      ((lo32 ≠ 0 ∨ hi32 ≠ 0) →
        uInt64_from_UInt32s lo32 hi32 ≠ hi32 * 4294967296 + lo32) := by
  intro lo hi hlo
  have hzero : uInt64_from_UInt32s lo hi = 0 := by
    apply Nat.zero_of_testBit_eq_false
    intro k
    rw [uInt64_from_UInt32s, Nat.testBit_and]
    by_cases hk : k < 32
    · rw [Nat.testBit_shiftLeft]
      simp [Nat.not_le.mpr hk]
    · have hb : lo.testBit k = false := by
        apply Nat.testBit_eq_false_of_lt
        calc lo < 4294967296 := hlo
        _ = 2 ^ 32 := by norm_num
        _ ≤ 2 ^ k := Nat.pow_le_pow_right (by norm_num) (by omega)
      simp [hb]
  refine ⟨rfl, hzero, fun _ => hzero, fun hne => ?_⟩
  rw [hzero]
  intro hcontra
  have h1 : hi * 4294967296 + lo = 0 := hcontra.symm
  rcases hne with h | h
  · omega
  · omega

/-- Witness for C7: at `lo32 = 1`, `hi32 = 1` the composer yields 0, not
`2^32 + 1`. -/
theorem c7_uInt64_composer_and_bug_witness :
    uInt64_from_UInt32s 1 1 = (1 <<< 32) &&& 1 ∧
    uInt64_from_UInt32s 1 1 = 0 ∧
    ((1 = 0 ∨ 1 = 0) → uInt64_from_UInt32s 1 1 = 0) ∧
    (((1 : Nat) ≠ 0 ∨ (1 : Nat) ≠ 0) →
      uInt64_from_UInt32s 1 1 ≠ 1 * 4294967296 + 1) :=
  c7_uInt64_composer_and_bug 1 1 (by norm_num)

end Bzip2

namespace Bzip2

/-! ## Selector exhaustion in `GET_MTF_VAL` (claim C9) -/

/-- Iterated `GET_MTF_VAL` preambles: one per symbol fetch of a block's MTF
value stream; `none` as soon as one preamble hits `RETURN(BZ_DATA_ERROR)`. -/
def iterPre : Nat → M → Option M
  | 0, m => some m
  | k + 1, m =>
    match getMtfPre m with
    | none => none
    | some m1 => iterPre k m1

/-- Invariant of a session that has performed `d ≥ 1` symbol fetches of the
current block: group counters track `d` (`groupNo = (d-1)/50`, `groupPos`
counts the remainder of the current group down), the selector data is
untouched, the group in use is `selector[(d-1)/50]`, and that index is below
`nSelectors`. -/
def QPre (base : M) (d : Nat) (m : M) : Prop :=
  1 ≤ d ∧
  m.groupNo = (((d - 1) / 50 : Nat) : Int) ∧
  m.groupPos = 49 - (d - 1) % 50 ∧
  m.nSelectors = base.nSelectors ∧
  m.selector = base.selector ∧
  m.gSel = base.selector.getD ((d - 1) / 50) 0 ∧
  (d - 1) / 50 < base.nSelectors

/-- One preamble step from a mid-run state: succeeds below the
`50 * nSelectors` fetch budget, fails exactly at its end. -/
theorem getMtfPre_step (base : M) (d : Nat) (m : M) (hq : QPre base d m) :
    (d < 50 * base.nSelectors →
      ∃ m1, getMtfPre m = some m1 ∧ QPre base (d + 1) m1) ∧
    (d = 50 * base.nSelectors → getMtfPre m = none) := by
  obtain ⟨hd, hno, hpos, hsel, hsele, hgsel, hlt⟩ := hq
  constructor
  · intro hlt2
    rw [getMtfPre]
    by_cases hz : m.groupPos = 0
    · rw [if_pos hz]
      have hmod : d % 50 = 0 := by omega
      have hbound : ¬ (m.groupNo + 1 ≥ (m.nSelectors : Int)) := by
        rw [hno, hsel]
        have : (d - 1) / 50 + 1 < base.nSelectors ∨
               (d - 1) / 50 + 1 = base.nSelectors := by omega
        omega
      rw [if_neg hbound]
      refine ⟨_, rfl, ?_⟩
      have htoNat : (m.groupNo + 1).toNat = d / 50 := by omega
      refine ⟨by omega, ?_, ?_, hsel, hsele, ?_, by omega⟩
      · simp only [hno]
        push_cast
        omega
      · simp only [BZ_G_SIZE]
        omega
      · rw [hsele, htoNat]
        have : d / 50 = (d + 1 - 1) / 50 := by omega
        rw [this]
    · rw [if_neg hz]
      refine ⟨_, rfl, by omega, ?_, ?_, hsel, hsele, ?_, by omega⟩
      · simp only [hno]
        have : (d + 1 - 1) / 50 = (d - 1) / 50 := by omega
        rw [this]
      · simp only
        omega
      · rw [hgsel]
        have : (d + 1 - 1) / 50 = (d - 1) / 50 := by omega
        rw [this]
  · intro hend
    rw [getMtfPre]
    have hz : m.groupPos = 0 := by omega
    rw [if_pos hz]
    have hbound : m.groupNo + 1 ≥ (m.nSelectors : Int) := by
      rw [hno, hsel]
      omega
    rw [if_pos hbound]

/-- Running `k` further preambles from a mid-run state: all succeed while the
budget lasts, and the first preamble past `50 * nSelectors` fetches fails. -/
theorem iterPre_mid : ∀ (k d : Nat) (base m : M), QPre base d m →
    (d + k ≤ 50 * base.nSelectors →
      ∃ m1, iterPre k m = some m1 ∧ QPre base (d + k) m1) ∧
    (50 * base.nSelectors < d + k → iterPre k m = none) := by
  intro k
  induction k with
  | zero =>
    intro d base m hq
    refine ⟨fun _ => ⟨m, rfl, hq⟩, fun hgt => ?_⟩
    exact absurd hq (by intro h; have := h.2.2.2.2.2.2; omega)
  | succ k ih =>
    intro d base m hq
    have hle : d ≤ 50 * base.nSelectors := by
      have := hq.2.2.2.2.2.2
      have := hq.1
      omega
    by_cases hend : d = 50 * base.nSelectors
    · have hnone := (getMtfPre_step base d m hq).2 hend
      rw [iterPre, hnone]
      exact ⟨fun hbad => absurd hbad (by omega), fun _ => rfl⟩
    · have hlt : d < 50 * base.nSelectors := by omega
      obtain ⟨m1, hstep, hq1⟩ := (getMtfPre_step base d m hq).1 hlt
      rw [iterPre, hstep]
      have hih := ih (d + 1) base m1 hq1
      constructor
      · intro hbud
        obtain ⟨m2, hrun, hq2⟩ := hih.1 (by omega)
        refine ⟨m2, hrun, ?_⟩
        rw [show d + (k + 1) = d + 1 + k by omega]
        exact hq2
      · intro hover
        exact hih.2 (by omega)

/-- C9: from the start of a block's MTF value stream (`groupNo = -1`,
`groupPos = 0`), performing `k` symbol fetches succeeds exactly when
`k ≤ 50 * nSelectors`; the fetch after all `nSelectors` selector groups are
used (`k > 50 * nSelectors`) makes `GET_MTF_VAL` return `BZ_DATA_ERROR`, and
every successful fetch uses `gSel = selector[groupNo]` with
`groupNo = (k-1)/50 < nSelectors` — no selector is reused and `selector[]` is
never read past `nSelectors`. -/
theorem c9_selector_group_exhaustion :
    ∀ (m : M) (k : Nat), m.groupNo = -1 → m.groupPos = 0 → 1 ≤ m.nSelectors →
      (iterPre k m = none ↔ 50 * m.nSelectors < k) ∧
      (∀ m1, iterPre k m = some m1 → 1 ≤ k →
        m1.groupNo = (((k - 1) / 50 : Nat) : Int) ∧
        (k - 1) / 50 < m.nSelectors ∧
        m1.gSel = m.selector.getD ((k - 1) / 50) 0) := by
  intro m k hno hpos hsel
  have hentry : ∀ hk : 1 ≤ k, ∃ m1, getMtfPre m = some m1 ∧ QPre m 1 m1 := by
    intro hk
    rw [getMtfPre, if_pos hpos]
    have hbound : ¬ (m.groupNo + 1 ≥ (m.nSelectors : Int)) := by
      rw [hno]; omega
    rw [if_neg hbound]
    refine ⟨_, rfl, le_refl 1, ?_, ?_, rfl, rfl, ?_, by omega⟩
    · simp only [hno]
      norm_num
    · simp only [BZ_G_SIZE, hno]
    · simp only [hno]
      norm_num
  constructor
  · constructor
    · intro hnone
      by_contra hle
      cases k with
      | zero => rw [iterPre] at hnone; exact Option.noConfusion hnone
      | succ k =>
        obtain ⟨m1, hstep, hq1⟩ := hentry (by omega)
        rw [iterPre, hstep] at hnone
        have hnone2 : iterPre k m1 = none := hnone
        obtain ⟨m2, hrun, -⟩ := (iterPre_mid k 1 m m1 hq1).1 (by omega)
        rw [hrun] at hnone2
        exact Option.noConfusion hnone2
    · intro hgt
      cases k with
      | zero => omega
      | succ k =>
        obtain ⟨m1, hstep, hq1⟩ := hentry (by omega)
        rw [iterPre, hstep]
        exact (iterPre_mid k 1 m m1 hq1).2 (by omega)
  · intro m1 hsome hk
    cases k with
    | zero => omega
    | succ k =>
      obtain ⟨m2, hstep, hq1⟩ := hentry hk
      rw [iterPre, hstep] at hsome
      have hsome2 : iterPre k m2 = some m1 := hsome
      by_cases hbud : 1 + k ≤ 50 * m.nSelectors
      · obtain ⟨m3, hrun, hq3⟩ := (iterPre_mid k 1 m m2 hq1).1 hbud
        rw [hrun] at hsome2
        cases Option.some.inj hsome2
        obtain ⟨-, ha, -, -, -, hb, hc⟩ := hq3
        have hidx : 1 + k - 1 = k + 1 - 1 := by omega
        rw [hidx] at ha hb hc
        exact ⟨ha, hc, hb⟩
      · have hn := (iterPre_mid k 1 m m2 hq1).2 (by omega)
        rw [hn] at hsome2
        exact Option.noConfusion hsome2

/-- Witness for C9: with one selector, 50 fetches succeed and the 51st
preamble fails with the data error. -/
theorem c9_selector_group_exhaustion_witness :
    (iterPre 51 { initM false with nSelectors := 1, groupNo := -1, groupPos := 0 } = none ↔
      50 * 1 < 51) ∧
    (∀ m1, iterPre 51 { initM false with nSelectors := 1, groupNo := -1, groupPos := 0 }
        = some m1 → 1 ≤ 51 →
      m1.groupNo = (((51 - 1) / 50 : Nat) : Int) ∧
      (51 - 1) / 50 < 1 ∧
      m1.gSel = (List.replicate BZ_MAX_SELECTORS 0).getD ((51 - 1) / 50) 0) :=
  c9_selector_group_exhaustion
    { initM false with nSelectors := 1, groupNo := -1, groupPos := 0 } 51 rfl rfl
    (le_refl 1)

end Bzip2

namespace Bzip2

/-! ## The `origPtr` range checks (claim C6) -/

/-- C6: after the third `origPtr` octet completes the 24-bit field, the parser
returns `BZ_DATA_ERROR` whenever the value is negative or exceeds
`10 + 100000 * blockSize100k` (first conjunct), and proceeds to the mapping
table exactly when it is in range (second conjunct); once the MTF value stream
has been decoded, the end-of-block segment returns `BZ_DATA_ERROR` unless
`0 ≤ origPtr < nblock` (third conjunct). -/
theorem c6_origPtr_checks :
    (∀ (m : M) (v : Nat),
       (m.origPtr * 256 + v < 0 ∨ m.origPtr * 256 + v > 10 + 100000 * (m.blockSize100k : Int)) →
       segOrigPtr3 m v = .ret { m with origPtr := m.origPtr * 256 + v } .dataError)
  ∧ (∀ (m : M) (v : Nat),
       0 ≤ m.origPtr * 256 + v → m.origPtr * 256 + v ≤ 10 + 100000 * (m.blockSize100k : Int) →
       segOrigPtr3 m v =
         .next { m with origPtr := m.origPtr * 256 + v, i := 0, pc := .mapping1 })
  ∧ (∀ m : M, m.origPtr < 0 ∨ m.origPtr ≥ (m.nblock : Int) →
       segEndOfBlock m = .ret m .dataError) := by
  refine ⟨fun m v hbad => ?_, fun m v h0 hbound => ?_, fun m hbad => ?_⟩
  · rw [segOrigPtr3]
    rcases hbad with h | h
    · rw [if_pos h]
    · rw [if_neg (by omega), if_pos h]
  · rw [segOrigPtr3, if_neg (by omega), if_neg (by omega)]
  · rw [segEndOfBlock, if_pos hbad]

/-- Witness for C6: an `origPtr` of `0xFFFFFF` in a level-1 block exceeds
`10 + 100000`, and an `origPtr` of 3 is rejected once `nblock = 2` is known. -/
theorem c6_origPtr_checks_witness :
    (segOrigPtr3 { initM false with origPtr := 65535, blockSize100k := 1 } 255 =
      .ret { { initM false with origPtr := 65535, blockSize100k := 1 } with
             origPtr := 65535 * 256 + 255 } .dataError) ∧
    (segEndOfBlock { initM false with origPtr := 3, nblock := 2 } =
      .ret { initM false with origPtr := 3, nblock := 2 } .dataError) :=
  ⟨(c6_origPtr_checks.1 { initM false with origPtr := 65535, blockSize100k := 1 } 255
      (Or.inr (by norm_num))),
   (c6_origPtr_checks.2.2 { initM false with origPtr := 3, nblock := 2 }
      (Or.inr (by norm_num)))⟩

end Bzip2

namespace Bzip2

/-! ## The RUNA/RUNB run accumulation (claim C2) -/

/-- The value a RUNA/RUNB sequence denotes, least significant symbol first:
`sum over i of w_i * 2^i` with weight 1 for RUNA (symbol 0) and 2 for RUNB
(symbol 1). -/
def runTotal : List Nat → Int
  | [] => 0
  | d :: ds => ((d : Int) + 1) + 2 * runTotal ds

/-- The recursive `runTotal` is the binary-weighted sum of the claim. -/
theorem runTotal_eq_sum (ds : List Nat) :
    runTotal ds = ∑ k ∈ Finset.range ds.length, ((ds.getD k 0 : Int) + 1) * 2 ^ k := by
  induction ds with
  | nil => simp [runTotal]
  | cons d ds ih =>
    rw [runTotal, ih, List.length_cons, Finset.sum_range_succ']
    have hcong : ∑ x ∈ Finset.range ds.length,
        (((d :: ds).getD (x + 1) 0 : Int) + 1) * 2 ^ (x + 1)
        = 2 * ∑ x ∈ Finset.range ds.length, ((ds.getD x 0 : Int) + 1) * 2 ^ x := by
      rw [Finset.mul_sum]
      exact Finset.sum_congr rfl fun x _ => by rw [List.getD_cons_succ]; ring
    rw [hcong]
    simp only [List.getD_cons_zero, pow_zero]
    ring

/-- Run values are nonnegative. -/
theorem runTotal_nonneg (ds : List Nat) : 0 ≤ runTotal ds := by
  induction ds with
  | nil => simp [runTotal]
  | cons d ds ih => rw [runTotal]; positivity

/-- A nonempty run denotes at least one repetition. -/
theorem runTotal_pos (ds : List Nat) (h : ds ≠ []) : 1 ≤ runTotal ds := by
  cases ds with
  | nil => exact absurd rfl h
  | cons d ds =>
    rw [runTotal]
    have h1 := runTotal_nonneg ds
    have h2 : (0 : Int) ≤ (d : Int) := Int.ofNat_nonneg d
    omega

/-- On `Int`, the guard constant `0x200000` is the 21st power of two. -/
theorem int_pow_guard (i : Nat) : ((2 : Int) ^ i ≥ 2097152) ↔ 21 ≤ i := by
  constructor
  · intro h
    by_contra hlt
    have hle : i ≤ 20 := by omega
    have : (2 : Int) ^ i ≤ 2 ^ 20 := pow_le_pow_right₀ (by norm_num) hle
    norm_num at this
    omega
  · intro h
    calc (2097152 : Int) = 2 ^ 21 := by norm_num
    _ ≤ 2 ^ i := pow_le_pow_right₀ (by norm_num) h

/-- Accumulation-loop characterisation: starting from `N = 2^i`, a run of
RUNA/RUNB symbols folds to `es + 2^i * runTotal ds` with `N = 2^(i+len)` as
long as every guard check passes (`i + len ≤ 21`), and hits the
`N >= 0x200000` guard — `BZ_DATA_ERROR` — as soon as a symbol is processed
with exponent 21 or more. -/
theorem mtfRunFold_char : ∀ (ds : List Nat) (i : Nat) (es : Int), (∀ d ∈ ds, d ≤ 1) →
    (i + ds.length ≤ 21 →
      mtfRunFold ds (es, 2 ^ i) = some (es + 2 ^ i * runTotal ds, 2 ^ (i + ds.length)))
    ∧ (22 ≤ i + ds.length → i ≤ 21 → mtfRunFold ds (es, 2 ^ i) = none) := by
  intro ds
  induction ds with
  | nil =>
    intro i es _
    constructor
    · intro _
      simp [mtfRunFold, runTotal]
    · intro h1 h2
      simp at h1
      omega
  | cons d ds ih =>
    intro i es hall
    have hd : d ≤ 1 := hall d (List.mem_cons_self d ds)
    have hall2 : ∀ x ∈ ds, x ≤ 1 := fun x hx => hall x (List.mem_cons_of_mem d hx)
    by_cases hge : (2 : Int) ^ i ≥ 2097152
    · have hi : 21 ≤ i := (int_pow_guard i).1 hge
      have hnone : mtfRunFold (d :: ds) (es, 2 ^ i) = none := by
        rw [mtfRunFold, runStepPure, if_pos hge]
      constructor
      · intro hle
        simp only [List.length_cons] at hle
        omega
      · intro _ _
        exact hnone
    · have hi : i ≤ 20 := by
        by_contra hgt
        exact hge ((int_pow_guard i).2 (by omega))
      have hstep : mtfRunFold (d :: ds) (es, 2 ^ i) =
          mtfRunFold ds (es + ((d : Int) + 1) * 2 ^ i, 2 ^ (i + 1)) := by
        rw [mtfRunFold, runStepPure, if_neg hge]
        have harm : (if d = BZ_RUNA then (2 : Int) ^ i
            else if d = BZ_RUNB then 2 ^ i * 2 else 0) = ((d : Int) + 1) * 2 ^ i := by
          match d, hd with
          | 0, _ => simp [BZ_RUNA]
          | 1, _ => simp [BZ_RUNA, BZ_RUNB]; ring
        rw [harm]
        have hpow : (2 : Int) ^ i * 2 = 2 ^ (i + 1) := by rw [pow_succ]
        rw [hpow]
      rw [hstep]
      have hih := ih (i + 1) (es + ((d : Int) + 1) * 2 ^ i) hall2
      constructor
      · intro hle
        simp only [List.length_cons] at hle
        rw [hih.1 (by omega)]
        have h1 : es + ((d : Int) + 1) * 2 ^ i + 2 ^ (i + 1) * runTotal ds
            = es + 2 ^ i * runTotal (d :: ds) := by
          rw [runTotal, pow_succ]
          ring
        have h2 : i + 1 + ds.length = i + (d :: ds).length := by
          simp only [List.length_cons]
          omega
        rw [h1, h2]
      · intro hgt _
        simp only [List.length_cons] at hgt
        exact hih.2 (by omega) (by omega)

/-- The append loop writes exactly `es` copies of `uc` at `nblock` when they
fit below `nblockMAX` (and within the allocated array). -/
theorem appendRun_success : ∀ (es nb mx uc : Nat) (a : List Nat),
    nb + es ≤ mx → nb + es ≤ a.length →
    appendRun uc es nb mx a =
      (0, nb + es, a.take nb ++ List.replicate es uc ++ a.drop (nb + es), true) := by
  intro es
  induction es with
  | zero =>
    intro nb mx uc a _ _
    simp [appendRun, List.take_append_drop]
  | succ es ih =>
    intro nb mx uc a hmx hlen
    have hnb : nb < a.length := by omega
    rw [appendRun, if_neg (by omega)]
    rw [ih (nb + 1) mx uc (a.set nb uc) (by omega) (by simp; omega)]
    have hl : (a.take nb).length = nb := by
      simp only [List.length_take]
      omega
    have hset : a.set nb uc = a.take nb ++ uc :: a.drop (nb + 1) :=
      List.set_eq_take_cons_drop uc hnb
    have htake : (a.set nb uc).take (nb + 1) = a.take nb ++ [uc] := by
      rw [hset, List.take_append_eq_append_take, hl]
      have h1 : (a.take nb).take (nb + 1) = a.take nb := by
        rw [List.take_take]
        congr 1
        omega
      rw [h1, show nb + 1 - nb = 1 from by omega]
      rfl
    have hdrop : (a.set nb uc).drop (nb + 1 + es) = a.drop (nb + (es + 1)) := by
      rw [hset, List.drop_append_eq_append_drop, hl]
      have h1 : (a.take nb).drop (nb + 1 + es) = [] := by
        apply List.drop_eq_nil_of_le
        rw [hl]
        omega
      rw [h1, show nb + 1 + es - nb = es + 1 from by omega]
      simp only [List.nil_append, List.drop_succ_cons, List.drop_drop]
      congr 1
      omega
    rw [htake, hdrop, show nb + 1 + es = nb + (es + 1) from by omega]
    simp [List.replicate_succ, List.append_assoc]

/-- When the run does not fit (`nblock + es > nblockMAX`), the append loop
hits the capacity check and fails with `BZ_DATA_ERROR`. -/
theorem appendRun_fail : ∀ (es nb mx uc : Nat) (a : List Nat), 1 ≤ es →
    mx < nb + es → (appendRun uc es nb mx a).2.2.2 = false := by
  intro es
  induction es with
  | zero => intro nb mx uc a h; omega
  | succ es ih =>
    intro nb mx uc a _ hlt
    rw [appendRun]
    by_cases hge : nb ≥ mx
    · rw [if_pos hge]
    · rw [if_neg hge]
      cases Nat.eq_zero_or_pos es with
      | inl h0 => omega
      | inr hpos => exact ih (nb + 1) mx uc (a.set nb uc) hpos (by omega)

end Bzip2

namespace Bzip2

/-- Fast-mode run flush: when the `es` repetitions fit under `nblockMAX` (and
inside the allocated `tt`), `runEmit` succeeds, adds `es` to
`unzftab[ucOf m]` and appends exactly `es` copies of `ucOf m` to the block. -/
theorem runEmit_fast (m : M) (hsmall : m.smallDecompress = false)
    (hcap : m.nblock + (m.es + 1).toNat ≤ m.nblockMAX)
    (hlen : m.nblock + (m.es + 1).toNat ≤ m.tt.length) :
    runEmit m = .inr { m with
      es := 0,
      unzftab := m.unzftab.set (ucOf m) (m.unzftab.getD (ucOf m) 0 + (m.es + 1)),
      nblock := m.nblock + (m.es + 1).toNat,
      tt := m.tt.take m.nblock ++ List.replicate (m.es + 1).toNat (ucOf m)
              ++ m.tt.drop (m.nblock + (m.es + 1).toNat) } := by
  rw [runEmit]
  simp only [hsmall, Bool.false_eq_true, if_false]
  rw [appendRun_success ((m.es + 1).toNat) m.nblock m.nblockMAX (ucOf m) m.tt hcap hlen]
  simp

/-- Small-mode run flush: when the `es` repetitions fit under `nblockMAX`
(and inside the allocated `ll16`), `runEmit` succeeds, adds `es` to
`unzftab[ucOf m]` and appends exactly `es` copies of `ucOf m` to the block
held in `ll16`. -/
theorem runEmit_small (m : M) (hsmall : m.smallDecompress = true)
    (hcap : m.nblock + (m.es + 1).toNat ≤ m.nblockMAX)
    (hlen : m.nblock + (m.es + 1).toNat ≤ m.ll16.length) :
    runEmit m = .inr { m with
      es := 0,
      unzftab := m.unzftab.set (ucOf m) (m.unzftab.getD (ucOf m) 0 + (m.es + 1)),
      nblock := m.nblock + (m.es + 1).toNat,
      ll16 := m.ll16.take m.nblock ++ List.replicate (m.es + 1).toNat (ucOf m)
                ++ m.ll16.drop (m.nblock + (m.es + 1).toNat) } := by
  rw [runEmit]
  simp only [hsmall, if_true]
  rw [appendRun_success ((m.es + 1).toNat) m.nblock m.nblockMAX (ucOf m) m.ll16 hcap hlen]
  simp

/-- C2 (amended): for a maximal run of `k ≥ 1` RUNA/RUNB symbols, the
accumulation loop never violates its guard exactly when `k ≤ 21`, and then
computes `es = sum of w_i * 2^i` (weight 1 for RUNA, 2 for RUNB); the flush
appends exactly `es` copies of the MTF front byte `ucOf m` to the block array
of the active mode (`tt` in fast mode, `ll16` in small mode) and adds `es` to
its `unzftab` entry provided — this is the amendment — the run also fits in
the block (`nblock + es ≤ nblockMAX`); a run of 22 or more symbols makes the
guard fire, returning `BZ_DATA_ERROR`. -/
theorem c2_run_accumulation_amended :
    ∀ ds : List Nat, (∀ d ∈ ds, d ≤ 1) → 1 ≤ ds.length →
      (ds.length ≤ 21 →
        mtfRunFold ds (-1, 1) = some (runTotal ds - 1, 2 ^ ds.length) ∧
        runTotal ds = ∑ k ∈ Finset.range ds.length, ((ds.getD k 0 : Int) + 1) * 2 ^ k ∧
        (∀ m : M, m.es = runTotal ds - 1 → m.smallDecompress = false →
          m.nblock + (runTotal ds).toNat ≤ m.nblockMAX →
          m.nblock + (runTotal ds).toNat ≤ m.tt.length →
          runEmit m = .inr { m with
            es := 0,
            unzftab := m.unzftab.set (ucOf m)
              (m.unzftab.getD (ucOf m) 0 + runTotal ds),
            nblock := m.nblock + (runTotal ds).toNat,
            tt := m.tt.take m.nblock ++ List.replicate (runTotal ds).toNat (ucOf m)
                    ++ m.tt.drop (m.nblock + (runTotal ds).toNat) }) ∧
        (∀ m : M, m.es = runTotal ds - 1 → m.smallDecompress = true →
          m.nblock + (runTotal ds).toNat ≤ m.nblockMAX →
          m.nblock + (runTotal ds).toNat ≤ m.ll16.length →
          runEmit m = .inr { m with
            es := 0,
            unzftab := m.unzftab.set (ucOf m)
              (m.unzftab.getD (ucOf m) 0 + runTotal ds),
            nblock := m.nblock + (runTotal ds).toNat,
            ll16 := m.ll16.take m.nblock ++ List.replicate (runTotal ds).toNat (ucOf m)
                      ++ m.ll16.drop (m.nblock + (runTotal ds).toNat) })) ∧
      (22 ≤ ds.length → mtfRunFold ds (-1, 1) = none) := by
  intro ds hrun hne
  constructor
  · intro hk
    refine ⟨?_, runTotal_eq_sum ds, ?_, ?_⟩
    · have h0 := (mtfRunFold_char ds 0 (-1) hrun).1 (by omega)
      simp only [pow_zero, zero_add, one_mul] at h0
      rw [show runTotal ds - 1 = -1 + runTotal ds from by ring]
      exact h0
    · intro m hes hsmall hcap hlen
      have hsum : m.es + 1 = runTotal ds := by rw [hes]; ring
      rw [← hsum] at hcap hlen ⊢
      exact runEmit_fast m hsmall hcap hlen
    · intro m hes hsmall hcap hlen
      have hsum : m.es + 1 = runTotal ds := by rw [hes]; ring
      rw [← hsum] at hcap hlen ⊢
      exact runEmit_small m hsmall hcap hlen
  · intro hk
    have := (mtfRunFold_char ds 0 (-1) hrun).2 (by omega) (by omega)
    simpa using this

/-- Counterexample machine for C2 as stated: a level-1 block (so
`nblockMAX = 100000`) whose accumulated run value is
`runTotal (replicate 20 RUNB) = 2^21 - 2 = 2097150`. -/
def mC2 : M :=
  { initM false with es := 2097149, nblock := 0, nblockMAX := 100000,
                     tt := List.replicate 100000 0 }

/-- A run that does not fit in the block makes `runEmit` take the
`RETURN(BZ_DATA_ERROR)` branch (fast mode). -/
theorem runEmit_fail_fast (m : M) (hsmall : m.smallDecompress = false)
    (h1 : 1 ≤ (m.es + 1).toNat) (h2 : m.nblockMAX < m.nblock + (m.es + 1).toNat) :
    (runEmit m).isRight = false := by
  have hfail := appendRun_fail ((m.es + 1).toNat) m.nblock m.nblockMAX (ucOf m) m.tt h1 h2
  rw [runEmit]
  simp only [hsmall, Bool.false_eq_true, if_false]
  rw [hfail]
  simp

/-- Counterexample for C2 as stated: after 20 consecutive RUNB symbols in a
level-1 block the guard `N < 2^21` is never violated (the fold succeeds and
`es = 2097150`), yet the flush does NOT append `es` copies — the capacity
check `nblock >= nblockMAX` fires and `runEmit` takes the
`RETURN(BZ_DATA_ERROR)` branch, because `es` exceeds `nblockMAX = 100000`.
The claim omits the `nblock + es ≤ nblockMAX` proviso. -/
theorem c2_run_accumulation_counterexample :
    mtfRunFold (List.replicate 20 1) (-1, 1) = some (2097149, 1048576) ∧
    runTotal (List.replicate 20 1) = 2097150 ∧
    (runEmit mC2).isRight = false := by
  refine ⟨by decide, by decide, ?_⟩
  have h1 : 1 ≤ (mC2.es + 1).toNat := by
    rw [show mC2.es = 2097149 from rfl]
    norm_num
  have h2 : mC2.nblockMAX < mC2.nblock + (mC2.es + 1).toNat := by
    rw [show mC2.es = 2097149 from rfl, show mC2.nblock = 0 from rfl,
        show mC2.nblockMAX = 100000 from rfl]
    norm_num
  exact runEmit_fail_fast mC2 rfl h1 h2

/-- Witness for the amended C2: the two-symbol run RUNB RUNA denotes
`es = 2 * 1 + 1 * 2 = 4`; the fold yields `(3, 4)` and the flush appends four
copies in either mode. -/
theorem c2_run_accumulation_amended_witness :
    (( [1, 0] : List Nat).length ≤ 21 →
      mtfRunFold [1, 0] (-1, 1) = some (runTotal [1, 0] - 1, 2 ^ ([1, 0] : List Nat).length) ∧
      runTotal [1, 0] = ∑ k ∈ Finset.range ([1, 0] : List Nat).length,
        ((([1, 0] : List Nat).getD k 0 : Int) + 1) * 2 ^ k ∧
      (∀ m : M, m.es = runTotal [1, 0] - 1 → m.smallDecompress = false →
        m.nblock + (runTotal [1, 0]).toNat ≤ m.nblockMAX →
        m.nblock + (runTotal [1, 0]).toNat ≤ m.tt.length →
        runEmit m = .inr { m with
          es := 0,
          unzftab := m.unzftab.set (ucOf m)
            (m.unzftab.getD (ucOf m) 0 + runTotal [1, 0]),
          nblock := m.nblock + (runTotal [1, 0]).toNat,
          tt := m.tt.take m.nblock ++ List.replicate (runTotal [1, 0]).toNat (ucOf m)
                  ++ m.tt.drop (m.nblock + (runTotal [1, 0]).toNat) }) ∧
      (∀ m : M, m.es = runTotal [1, 0] - 1 → m.smallDecompress = true →
        m.nblock + (runTotal [1, 0]).toNat ≤ m.nblockMAX →
        m.nblock + (runTotal [1, 0]).toNat ≤ m.ll16.length →
        runEmit m = .inr { m with
          es := 0,
          unzftab := m.unzftab.set (ucOf m)
            (m.unzftab.getD (ucOf m) 0 + runTotal [1, 0]),
          nblock := m.nblock + (runTotal [1, 0]).toNat,
          ll16 := m.ll16.take m.nblock ++ List.replicate (runTotal [1, 0]).toNat (ucOf m)
                    ++ m.ll16.drop (m.nblock + (runTotal [1, 0]).toNat) })) ∧
    (22 ≤ ([1, 0] : List Nat).length → mtfRunFold [1, 0] (-1, 1) = none) :=
  c2_run_accumulation_amended [1, 0] (by decide) (by decide)

end Bzip2

namespace Bzip2

/-! ## Selector reading, clamping and inverse MTF (claim C5) -/

/-- The unary selector code reader (decompress.c lines 288-294): count 1-bits
into `j` until a 0-bit; `j` reaching `nGroups` is `BZ_DATA_ERROR` (merged with
bit-list exhaustion into `none` at this pure level). -/
def readUnary (nGroups : Nat) : Nat → List Nat → Option (Nat × List Nat)
  | _, [] => none
  | j, b :: bs =>
    if b = 0 then some (j, bs)
    else if j + 1 ≥ nGroups then none
    else readUnary nGroups (j + 1) bs

/-- The selector reading loop (decompress.c lines 287-300): one unary code per
selector, stored into `selectorMtf` only at positions below
`BZ_MAX_SELECTORS`; every code is consumed from the bit stream regardless. -/
def readSelLoop (nGroups : Nat) : Nat → Nat → List Nat → List Nat →
    Option (List Nat × List Nat)
  | 0, _, selMtf, bits => some (selMtf, bits)
  | k + 1, idx, selMtf, bits =>
    match readUnary nGroups 0 bits with
    | none => none
    | some (j, bits1) =>
      readSelLoop nGroups k (idx + 1)
        (if idx < BZ_MAX_SELECTORS then selMtf.set idx j else selMtf) bits1

/-- The whole selector phase (decompress.c lines 287-316): read `nSelectors`
unary codes, clamp `nSelectors` to `BZ_MAX_SELECTORS`, and inverse-MTF the
retained `selectorMtf` prefix into `selector`.  Returns
`(selectorMtf, clamped nSelectors, selector, remaining bits)`. -/
def readSelectorsAll (nGroups nSelectors : Nat) (selMtf : List Nat) (bits : List Nat) :
    Option (List Nat × Nat × List Nat × List Nat) :=
  match readSelLoop nGroups nSelectors 0 selMtf bits with
  | none => none
  | some (selMtf1, rest) =>
    let nSel := min nSelectors BZ_MAX_SELECTORS
    some (selMtf1, nSel, selUndo (List.range nGroups) (selMtf1.take nSel), rest)

/-- The wire encoding of one selector: a zero-terminated run of 1-bits. -/
def unaryCode (v : Nat) : List Nat :=
  List.replicate v 1 ++ [0]

/-- The wire encoding of the whole selector sequence. -/
def unaryCodes (vs : List Nat) : List Nat :=
  (vs.map unaryCode).flatten

/-- What the selector loop stores: the values in order, but only at positions
below `BZ_MAX_SELECTORS`. -/
def selWriteFold : List Nat → Nat → List Nat → List Nat
  | selMtf, _, [] => selMtf
  | selMtf, idx, v :: vs =>
    selWriteFold (if idx < BZ_MAX_SELECTORS then selMtf.set idx v else selMtf) (idx + 1) vs

/-- The unary reader consumes exactly the code of `v` (for `v < nGroups`,
counting from any `j` with `j + v < nGroups`). -/
theorem readUnary_code : ∀ (v j nGroups : Nat) (rest : List Nat), j + v < nGroups →
    readUnary nGroups j (List.replicate v 1 ++ 0 :: rest) = some (j + v, rest) := by
  intro v
  induction v with
  | zero =>
    intro j nGroups rest _
    simp [readUnary]
  | succ v ih =>
    intro j nGroups rest hlt
    rw [List.replicate_succ, List.cons_append, readUnary]
    rw [if_neg (by norm_num), if_neg (by omega)]
    rw [ih (j + 1) nGroups rest (by omega)]
    congr 2
    omega

/-- The selector loop consumes exactly the encodings of `vs` and performs the
guarded stores of `selWriteFold`. -/
theorem readSelLoop_codes : ∀ (vs : List Nat) (nGroups idx : Nat)
    (selMtf : List Nat) (rest : List Nat), (∀ v ∈ vs, v < nGroups) →
    readSelLoop nGroups vs.length idx selMtf (unaryCodes vs ++ rest) =
      some (selWriteFold selMtf idx vs, rest) := by
  intro vs
  induction vs with
  | nil =>
    intro nGroups idx selMtf rest _
    simp [unaryCodes, readSelLoop, selWriteFold]
  | cons v vs ih =>
    intro nGroups idx selMtf rest hall
    have hv : v < nGroups := hall v (List.mem_cons_self v vs)
    have hall2 : ∀ x ∈ vs, x < nGroups := fun x hx => hall x (List.mem_cons_of_mem v hx)
    have henc : unaryCodes (v :: vs) ++ rest
        = List.replicate v 1 ++ 0 :: (unaryCodes vs ++ rest) := by
      simp [unaryCodes, unaryCode, List.append_assoc]
    rw [List.length_cons, henc, readSelLoop, readUnary_code v 0 nGroups _ (by omega)]
    simp only [Nat.zero_add]
    rw [ih nGroups (idx + 1) _ rest hall2]
    rfl

/-- Past `BZ_MAX_SELECTORS` the loop stores nothing. -/
theorem selWriteFold_past : ∀ (vs : List Nat) (idx : Nat) (s : List Nat),
    BZ_MAX_SELECTORS ≤ idx → selWriteFold s idx vs = s := by
  intro vs
  induction vs with
  | nil => intro idx s _; rfl
  | cons v vs ih =>
    intro idx s hge
    rw [selWriteFold, if_neg (by omega)]
    exact ih (idx + 1) s (by omega)

/-- Store characterisation: from position `idx`, the loop overwrites positions
`idx .. min (idx+|vs|) BZ_MAX_SELECTORS - 1` with the corresponding values and
keeps everything else. -/
theorem selWriteFold_char : ∀ (vs : List Nat) (idx : Nat) (s : List Nat),
    s.length = BZ_MAX_SELECTORS → idx ≤ BZ_MAX_SELECTORS →
    selWriteFold s idx vs =
      s.take idx ++ vs.take (BZ_MAX_SELECTORS - idx)
        ++ s.drop (min (idx + vs.length) BZ_MAX_SELECTORS) := by
  intro vs
  induction vs with
  | nil =>
    intro idx s hs hidx
    simp only [selWriteFold, List.take_nil, List.length_nil, Nat.add_zero]
    rw [show min idx BZ_MAX_SELECTORS = idx from by omega]
    simp [List.take_append_drop]
  | cons v vs ih =>
    intro idx s hs hidx
    simp only [List.length_cons]
    by_cases hlt : idx < BZ_MAX_SELECTORS
    · rw [selWriteFold, if_pos hlt]
      rw [ih (idx + 1) (s.set idx v) (by simp [hs]) (by omega)]
      have hnb : idx < s.length := by omega
      have hset : s.set idx v = s.take idx ++ v :: s.drop (idx + 1) :=
        List.set_eq_take_cons_drop v hnb
      have hl : (s.take idx).length = idx := by
        simp only [List.length_take]
        omega
      have htake : (s.set idx v).take (idx + 1) = s.take idx ++ [v] := by
        rw [hset, List.take_append_eq_append_take, hl]
        have h1 : (s.take idx).take (idx + 1) = s.take idx := by
          rw [List.take_take]
          congr 1
          omega
        rw [h1, show idx + 1 - idx = 1 from by omega]
        rfl
      have hdropmin : (s.set idx v).drop (min (idx + 1 + vs.length) BZ_MAX_SELECTORS)
          = s.drop (min (idx + 1 + vs.length) BZ_MAX_SELECTORS) := by
        apply List.drop_set_of_lt
        omega
      rw [htake, hdropmin]
      have hvt : (v :: vs).take (BZ_MAX_SELECTORS - idx)
          = v :: vs.take (BZ_MAX_SELECTORS - (idx + 1)) := by
        rw [show BZ_MAX_SELECTORS - idx = (BZ_MAX_SELECTORS - (idx + 1)) + 1 from by omega]
        rfl
      rw [hvt, show idx + (vs.length + 1) = idx + 1 + vs.length from by omega]
      simp [List.append_assoc]
    · have hidx2 : idx = BZ_MAX_SELECTORS := by omega
      rw [selWriteFold, if_neg hlt, selWriteFold_past vs (idx + 1) s (by omega)]
      subst hidx2
      rw [show min (BZ_MAX_SELECTORS + (vs.length + 1)) BZ_MAX_SELECTORS
            = BZ_MAX_SELECTORS from by omega]
      rw [show BZ_MAX_SELECTORS - BZ_MAX_SELECTORS = 0 from by omega]
      rw [List.take_of_length_le (by omega), List.drop_eq_nil_of_le (by omega)]
      simp

end Bzip2

namespace Bzip2

/-- C5: for a selector sequence of any declared length in `[1, 32767]`, the
selector phase consumes every unary code from the bit stream (the remaining
bits are exactly `rest`, so the bit position advances past all of them), but
stores only positions `0 .. BZ_MAX_SELECTORS - 1` into `selectorMtf` (the tail
of the 18002-entry array is untouched), clamps `nSelectors` to
`min nSelectors 18002`, and inverse-MTF-decodes exactly the retained prefix
into `selector`. -/
theorem c5_selector_consume_clamp :
    ∀ (nGroups : Nat) (vs rest s0 : List Nat),
      (∀ v ∈ vs, v < nGroups) → 1 ≤ vs.length → vs.length ≤ 32767 →
      s0.length = BZ_MAX_SELECTORS →
      readSelectorsAll nGroups vs.length s0 (unaryCodes vs ++ rest) =
        some (vs.take BZ_MAX_SELECTORS ++ s0.drop (min vs.length BZ_MAX_SELECTORS),
              min vs.length BZ_MAX_SELECTORS,
              selUndo (List.range nGroups) (vs.take (min vs.length BZ_MAX_SELECTORS)),
              rest) := by
  intro nG vs rest s0 hall hge hle hs0
  have hpref : (vs.take BZ_MAX_SELECTORS ++ s0.drop (min vs.length BZ_MAX_SELECTORS)).take
      (min vs.length BZ_MAX_SELECTORS) = vs.take (min vs.length BZ_MAX_SELECTORS) := by
    rw [List.take_append_eq_append_take]
    have hlt : (vs.take BZ_MAX_SELECTORS).length = min vs.length BZ_MAX_SELECTORS := by
      simp only [List.length_take]
      omega
    rw [hlt, Nat.sub_self, List.take_zero, List.append_nil, List.take_take]
    congr 1
    omega
  rw [readSelectorsAll, readSelLoop_codes vs nG 0 s0 rest hall]
  have hchar := selWriteFold_char vs 0 s0 hs0 (by omega)
  simp only [List.take_zero, List.nil_append, Nat.zero_add, Nat.sub_zero] at hchar
  rw [hchar]
  simp only
  rw [hpref]

/-- Witness for C5: two groups, selector-MTF values `[0, 1]`. -/
theorem c5_selector_consume_clamp_witness :
    readSelectorsAll 2 ([0, 1] : List Nat).length (List.replicate BZ_MAX_SELECTORS 0)
        (unaryCodes [0, 1] ++ []) =
      some (([0, 1] : List Nat).take BZ_MAX_SELECTORS ++
              (List.replicate BZ_MAX_SELECTORS 0).drop
                (min ([0, 1] : List Nat).length BZ_MAX_SELECTORS),
            min ([0, 1] : List Nat).length BZ_MAX_SELECTORS,
            selUndo (List.range 2) (([0, 1] : List Nat).take
              (min ([0, 1] : List Nat).length BZ_MAX_SELECTORS)),
            []) :=
  c5_selector_consume_clamp 2 [0, 1] [] (List.replicate BZ_MAX_SELECTORS 0)
    (by decide) (by decide) (by decide) (by simp)

end Bzip2

namespace Bzip2

/-! ## The stream magic checks (claim C3) -/

/-- Masking with 0xFF is reduction mod 256. -/
theorem and255_eq_mod (x : Nat) : x &&& 255 = x % 256 := by
  have h := Nat.and_pow_two_sub_one_eq_mod x 8
  norm_num at h
  exact h

/-- Extracting the 8 bits just shifted into the (wrapped) 32-bit buffer
returns the shifted byte. -/
theorem extract_first_byte (buf : Nat) (b : Byte) :
    bsExtract (((buf <<< 8) ||| b.val) % 4294967296) 8 8 = b.val := by
  rw [bsExtract]
  norm_num
  rw [show (1 : Nat) <<< 8 - 1 = 255 from rfl]
  rw [and255_eq_mod, Nat.mod_mod_of_dvd _ (by norm_num : (256 : Nat) ∣ 4294967296)]
  rw [← and255_eq_mod]
  apply Nat.eq_of_testBit_eq
  intro k
  rw [Nat.testBit_and, Nat.testBit_or,
      show (255 : Nat) = 2 ^ 8 - 1 from by norm_num, Nat.testBit_two_pow_sub_one]
  by_cases hk : k < 8
  · have hs : (buf <<< 8).testBit k = false := by
      rw [Nat.testBit_shiftLeft]
      simp [show ¬(8 ≤ k) from by omega]
    simp [hs, hk]
  · have hb : b.val.testBit k = false := by
      apply Nat.testBit_eq_false_of_lt
      calc b.val < 256 := b.isLt
      _ = 2 ^ 8 := by norm_num
      _ ≤ 2 ^ k := Nat.pow_le_pow_right (by norm_num) (by omega)
    simp [hb, hk]

/-- A machine at an 8-bit fetch with an empty bit buffer needs input. -/
theorem exec1_need_zero (m : M) (h0 : m.bsLive = 0) (hw : 0 < widthOf m)
    (hpc : ¬(m.pc = .output ∨ m.pc = .idle)) : exec1 m = .need := by
  rw [exec1, if_neg hpc, if_neg]
  rw [h0]
  intro hcontra
  omega

/-- The machine after one `GET_BITS` refill plus an 8-bit extraction with an
initially empty bit buffer. -/
def consumed (m : M) (b : Byte) : M :=
  { shiftByte m b with bsLive := 0 }

/-- A machine with its parser state replaced. -/
def atPc (m : M) (p : XState) : M :=
  { m with pc := p }

/-- After refilling one byte at an empty 8-bit fetch, the macro step runs the
segment on exactly that byte. -/
theorem exec1_shift8 (m : M) (b : Byte) (h0 : m.bsLive = 0) (hw : widthOf m = 8)
    (hpc : ¬(m.pc = .output ∨ m.pc = .idle)) :
    exec1 (shiftByte m b) = runSeg (consumed m b) b.val := by
  rw [consumed]
  have hpc2 : (shiftByte m b).pc = m.pc := rfl
  have hw2 : widthOf (shiftByte m b) = 8 := by
    rw [show widthOf (shiftByte m b) = widthOf m from rfl, hw]
  have hbs : (shiftByte m b).bsLive = 8 := by
    rw [show (shiftByte m b).bsLive = m.bsLive + 8 from rfl, h0]
    norm_num
  rw [exec1, if_neg (show ¬((shiftByte m b).pc = .output ∨ (shiftByte m b).pc = .idle)
      from hpc), if_pos (by rw [hbs, hw2]; norm_num)]
  rw [hw2, hbs]
  norm_num
  rw [show (shiftByte m b).bsBuff = ((m.bsBuff <<< 8) ||| b.val) % 4294967296 from rfl]
  rw [extract_first_byte m.bsBuff b]

end Bzip2

namespace Bzip2

/-- One byte-aligned 8-bit fetch whose segment returns: two macro steps of
`feed` (refill, then run the segment on that byte). -/
theorem feed_step8_ret (f : Nat) (m m1 : M) (b : Byte) (rest : List Byte) (c : RetCode)
    (h0 : m.bsLive = 0) (hw : widthOf m = 8)
    (hpc : ¬(m.pc = .output ∨ m.pc = .idle))
    (hseg : runSeg (consumed m b) b.val = .ret m1 c) :
    feed (f + 2) m (b :: rest) = some (m1, rest, .finished c) := by
  have hstep : feed (f + 2) m (b :: rest) = feed (f + 1) (shiftByte m b) rest := by
    rw [show f + 2 = (f + 1) + 1 from rfl, feed_succ, exec1_need_zero m h0 (by omega) hpc]
  rw [hstep, feed_succ, exec1_shift8 m b h0 hw hpc, hseg]

/-- One byte-aligned 8-bit fetch whose segment continues: the remaining fuel
runs from the post-segment machine. -/
theorem feed_step8_next (f : Nat) (m m1 : M) (b : Byte) (rest : List Byte)
    (h0 : m.bsLive = 0) (hw : widthOf m = 8)
    (hpc : ¬(m.pc = .output ∨ m.pc = .idle))
    (hseg : runSeg (consumed m b) b.val = .next m1) :
    feed (f + 2) m (b :: rest) = feed f m1 rest := by
  have hstep : feed (f + 2) m (b :: rest) = feed (f + 1) (shiftByte m b) rest := by
    rw [show f + 2 = (f + 1) + 1 from rfl, feed_succ, exec1_need_zero m h0 (by omega) hpc]
  rw [hstep, feed_succ, exec1_shift8 m b h0 hw hpc, hseg]

/-- Observable outcome of a call: the parser state it stops in, the
unconsumed input, and the result. -/
def feedRes (f : Nat) (m : M) (inp : List Byte) : Option (XState × List Byte × Res) :=
  (feed f m inp).map (fun p => (p.1.pc, p.2.1, p.2.2))

end Bzip2

namespace Bzip2

/-- Dispatch reduction: the segment run at a given label. -/
theorem runSeg_at (m : M) (v : Nat) (p : XState) (h : m.pc = p) :
    runSeg m v = runSeg (atPc m p) v := by
  rw [show atPc m p = { m with pc := m.pc } from by rw [atPc, h]]

/-- Width of the fetch at `BZ_X_MAGIC_1..4` is one octet. -/
theorem widthOf_eight (m : M) (h : m.pc = .magic1 ∨ m.pc = .magic2 ∨ m.pc = .magic3 ∨
    m.pc = .magic4) : widthOf m = 8 := by
  rw [widthOf.eq_def]
  rcases h with h | h | h | h <;> rw [h]

/-- A magic-state machine is not in the output or idle states. -/
theorem magic_not_oi (m : M) (h : m.pc = .magic1 ∨ m.pc = .magic2 ∨ m.pc = .magic3 ∨
    m.pc = .magic4) : ¬(m.pc = .output ∨ m.pc = .idle) := by
  rcases h with h | h | h | h <;> rw [h] <;> simp

/-- The first magic octet 0x42 passes `BZ_X_MAGIC_1`. -/
theorem feed_magic1_pass (f : Nat) (m : M) (b : Byte) (rest : List Byte)
    (hpc : m.pc = .magic1) (h0 : m.bsLive = 0) (hb : b.val = 66) :
    feed (f + 2) m (b :: rest) = feed f (atPc (consumed m b) .magic2) rest := by
  apply feed_step8_next f m _ b rest h0 (widthOf_eight m (by tauto)) (magic_not_oi m (by tauto))
  rw [runSeg_at (consumed m b) b.val .magic1 hpc]
  show segMagic1 (atPc (consumed m b) .magic1) b.val = _
  rw [segMagic1, if_neg (by omega)]
  rfl

end Bzip2

namespace Bzip2

/-- The second magic octet 0x5A passes `BZ_X_MAGIC_2`. -/
theorem feed_magic2_pass (f : Nat) (m : M) (b : Byte) (rest : List Byte)
    (hpc : m.pc = .magic2) (h0 : m.bsLive = 0) (hb : b.val = 90) :
    feed (f + 2) m (b :: rest) = feed f (atPc (consumed m b) .magic3) rest := by
  apply feed_step8_next f m _ b rest h0 (widthOf_eight m (by tauto)) (magic_not_oi m (by tauto))
  rw [runSeg_at (consumed m b) b.val .magic2 hpc]
  show segMagic2 (atPc (consumed m b) .magic2) b.val = _
  rw [segMagic2, if_neg (by omega)]
  rfl

/-- The third magic octet 0x68 passes `BZ_X_MAGIC_3`. -/
theorem feed_magic3_pass (f : Nat) (m : M) (b : Byte) (rest : List Byte)
    (hpc : m.pc = .magic3) (h0 : m.bsLive = 0) (hb : b.val = 104) :
    feed (f + 2) m (b :: rest) = feed f (atPc (consumed m b) .magic4) rest := by
  apply feed_step8_next f m _ b rest h0 (widthOf_eight m (by tauto)) (magic_not_oi m (by tauto))
  rw [runSeg_at (consumed m b) b.val .magic3 hpc]
  show segMagic3 (atPc (consumed m b) .magic3) b.val = _
  rw [segMagic3, if_neg (by omega)]
  rfl

/-- A wrong first octet fails with `BZ_DATA_ERROR_MAGIC` at once. -/
theorem feed_magic1_fail (m : M) (b : Byte) (rest : List Byte)
    (hpc : m.pc = .magic1) (h0 : m.bsLive = 0) (hb : b.val ≠ 66) :
    (feed 2 m (b :: rest)).map (fun p => (p.1.pc, p.2.1, p.2.2))
      = some (m.pc, rest, .finished .dataErrorMagic) := by
  have hseg : runSeg (consumed m b) b.val
      = .ret (atPc (consumed m b) XState.magic1) .dataErrorMagic := by
    rw [runSeg_at (consumed m b) b.val .magic1 hpc]
    show segMagic1 (atPc (consumed m b) .magic1) b.val = _
    rw [segMagic1, if_pos hb]
  rw [show (2 : Nat) = 0 + 2 from rfl,
      feed_step8_ret 0 m _ b rest .dataErrorMagic h0 (widthOf_eight m (by tauto))
        (magic_not_oi m (by tauto)) hseg]
  simp [atPc, hpc]

/-- A wrong second octet fails with `BZ_DATA_ERROR_MAGIC`. -/
theorem feed_magic2_fail (m : M) (b : Byte) (rest : List Byte)
    (hpc : m.pc = .magic2) (h0 : m.bsLive = 0) (hb : b.val ≠ 90) :
    (feed 2 m (b :: rest)).map (fun p => (p.1.pc, p.2.1, p.2.2))
      = some (m.pc, rest, .finished .dataErrorMagic) := by
  have hseg : runSeg (consumed m b) b.val
      = .ret (atPc (consumed m b) XState.magic2) .dataErrorMagic := by
    rw [runSeg_at (consumed m b) b.val .magic2 hpc]
    show segMagic2 (atPc (consumed m b) .magic2) b.val = _
    rw [segMagic2, if_pos hb]
  rw [show (2 : Nat) = 0 + 2 from rfl,
      feed_step8_ret 0 m _ b rest .dataErrorMagic h0 (widthOf_eight m (by tauto))
        (magic_not_oi m (by tauto)) hseg]
  simp [atPc, hpc]

/-- A wrong third octet fails with `BZ_DATA_ERROR_MAGIC`. -/
theorem feed_magic3_fail (m : M) (b : Byte) (rest : List Byte)
    (hpc : m.pc = .magic3) (h0 : m.bsLive = 0) (hb : b.val ≠ 104) :
    (feed 2 m (b :: rest)).map (fun p => (p.1.pc, p.2.1, p.2.2))
      = some (m.pc, rest, .finished .dataErrorMagic) := by
  have hseg : runSeg (consumed m b) b.val
      = .ret (atPc (consumed m b) XState.magic3) .dataErrorMagic := by
    rw [runSeg_at (consumed m b) b.val .magic3 hpc]
    show segMagic3 (atPc (consumed m b) .magic3) b.val = _
    rw [segMagic3, if_pos hb]
  rw [show (2 : Nat) = 0 + 2 from rfl,
      feed_step8_ret 0 m _ b rest .dataErrorMagic h0 (widthOf_eight m (by tauto))
        (magic_not_oi m (by tauto)) hseg]
  simp [atPc, hpc]

/-- A level octet outside `'1' .. '9'` fails with `BZ_DATA_ERROR_MAGIC`. -/
theorem feed_magic4_fail (m : M) (b : Byte) (rest : List Byte)
    (hpc : m.pc = .magic4) (h0 : m.bsLive = 0) (hb : b.val < 49 ∨ 57 < b.val) :
    (feed 2 m (b :: rest)).map (fun p => (p.1.pc, p.2.1, p.2.2))
      = some (m.pc, rest, .finished .dataErrorMagic) := by
  have hseg : runSeg (consumed m b) b.val
      = .ret { atPc (consumed m b) XState.magic4 with blockSize100k := b.val }
          .dataErrorMagic := by
    rw [runSeg_at (consumed m b) b.val .magic4 hpc]
    show segMagic4 (atPc (consumed m b) .magic4) b.val = _
    simp only [segMagic4]
    rw [if_pos hb]
  rw [show (2 : Nat) = 0 + 2 from rfl,
      feed_step8_ret 0 m _ b rest .dataErrorMagic h0 (widthOf_eight m (by tauto))
        (magic_not_oi m (by tauto)) hseg]
  simp [atPc, hpc]

/-- C3: a fresh session (either mode) rejects a corrupted file magic with
`BZ_DATA_ERROR_MAGIC` at the first offending byte: the bytes after it are
left unconsumed, and the parser never reaches `BZ_X_OUTPUT` — output bytes
are only ever produced in that state, so no output is produced.  The four
conjuncts cover the four magic octets `0x42 0x5A 0x68 '1'..'9'`. -/
theorem c3_magic_rejection :
    ∀ (sm : Bool) (b0 b1 b2 b3 : Byte) (rest : List Byte),
      (b0.val ≠ 66 →
        feedRes 2 (initM sm) (b0 :: rest) =
          some (.magic1, rest, .finished .dataErrorMagic)) ∧
      (b0.val = 66 → b1.val ≠ 90 →
        feedRes 4 (initM sm) (b0 :: b1 :: rest) =
          some (.magic2, rest, .finished .dataErrorMagic)) ∧
      (b0.val = 66 → b1.val = 90 → b2.val ≠ 104 →
        feedRes 6 (initM sm) (b0 :: b1 :: b2 :: rest) =
          some (.magic3, rest, .finished .dataErrorMagic)) ∧
      (b0.val = 66 → b1.val = 90 → b2.val = 104 → (b3.val < 49 ∨ 57 < b3.val) →
        feedRes 8 (initM sm) (b0 :: b1 :: b2 :: b3 :: rest) =
          some (.magic4, rest, .finished .dataErrorMagic)) := by
  intro sm b0 b1 b2 b3 rest
  refine ⟨fun h0 => ?_, fun h0 h1 => ?_, fun h0 h1 h2 => ?_, fun h0 h1 h2 h3 => ?_⟩
  · rw [feedRes, feed_magic1_fail (initM sm) b0 rest rfl rfl h0]
    rfl
  · rw [feedRes, show (4 : Nat) = 2 + 2 from rfl,
        feed_magic1_pass 2 (initM sm) b0 (b1 :: rest) rfl rfl h0,
        feed_magic2_fail (atPc (consumed (initM sm) b0) .magic2) b1 rest rfl rfl h1]
    rfl
  · rw [feedRes, show (6 : Nat) = 4 + 2 from rfl,
        feed_magic1_pass 4 (initM sm) b0 (b1 :: b2 :: rest) rfl rfl h0,
        show (4 : Nat) = 2 + 2 from rfl,
        feed_magic2_pass 2 (atPc (consumed (initM sm) b0) .magic2) b1 (b2 :: rest) rfl rfl h1,
        feed_magic3_fail (atPc (consumed (atPc (consumed (initM sm) b0) .magic2) b1) .magic3)
          b2 rest rfl rfl h2]
    rfl
  · rw [feedRes, show (8 : Nat) = 6 + 2 from rfl,
        feed_magic1_pass 6 (initM sm) b0 (b1 :: b2 :: b3 :: rest) rfl rfl h0,
        show (6 : Nat) = 4 + 2 from rfl,
        feed_magic2_pass 4 (atPc (consumed (initM sm) b0) .magic2) b1 (b2 :: b3 :: rest)
          rfl rfl h1,
        show (4 : Nat) = 2 + 2 from rfl,
        feed_magic3_pass 2 (atPc (consumed (atPc (consumed (initM sm) b0) .magic2) b1) .magic3)
          b2 (b3 :: rest) rfl rfl h2,
        feed_magic4_fail (atPc (consumed (atPc (consumed (atPc (consumed (initM sm) b0)
          .magic2) b1) .magic3) b2) .magic4) b3 rest rfl rfl h3]
    rfl

/-- Witness for C3: the first byte 0x00 of a one-byte input is rejected. -/
theorem c3_magic_rejection_witness :
    ((0 : Byte).val ≠ 66 →
      feedRes 2 (initM false) ((0 : Byte) :: []) =
        some (.magic1, [], .finished .dataErrorMagic)) ∧
    ((0 : Byte).val = 66 → (0 : Byte).val ≠ 90 →
      feedRes 4 (initM false) ((0 : Byte) :: (0 : Byte) :: []) =
        some (.magic2, [], .finished .dataErrorMagic)) ∧
    ((0 : Byte).val = 66 → (0 : Byte).val = 90 → (0 : Byte).val ≠ 104 →
      feedRes 6 (initM false) ((0 : Byte) :: (0 : Byte) :: (0 : Byte) :: []) =
        some (.magic3, [], .finished .dataErrorMagic)) ∧
    ((0 : Byte).val = 66 → (0 : Byte).val = 90 → (0 : Byte).val = 104 →
      ((0 : Byte).val < 49 ∨ 57 < (0 : Byte).val) →
      feedRes 8 (initM false) ((0 : Byte) :: (0 : Byte) :: (0 : Byte) :: (0 : Byte) :: []) =
        some (.magic4, [], .finished .dataErrorMagic)) :=
  c3_magic_rejection false 0 0 0 0 []

end Bzip2

namespace Bzip2

/-! ## The machine invariant behind claims C4 and C8

`BZ2_decompress` keeps `0 ≤ bsLive ≤ 32` because every fetch asks for at most
24 bits (the only variable width, `zn`, is a code length bounded by 20).  That
bound rests on a chain of facts the parser establishes: every stored code
length lies in `[1, 20]` (the delta-loop check), hence every `minLens` entry
is at most 20, hence `gMinlen` and `zn` are at most 20 at the `GET_MTF_VAL`
fetches.  `pcObAt` states the per-state obligations and `GInv` the whole
invariant, preserved by every macro step and byte refill. -/

/-- Per-state proof obligations (on the fields `zn`, `gMinlen`, `alphaSize`,
`curr`). -/
def pcObAt (p : XState) (zn gMinlen alphaSize : Nat) (curr : Int) : Prop :=
  match p with
  | .mtf1 => zn ≤ 20 ∧ gMinlen ≤ 20
  | .mtf3 => zn ≤ 20 ∧ gMinlen ≤ 20
  | .mtf5 => zn ≤ 20 ∧ gMinlen ≤ 20
  | .mtf2 => gMinlen ≤ 20
  | .mtf4 => gMinlen ≤ 20
  | .mtf6 => gMinlen ≤ 20
  | .selector1 => 1 ≤ alphaSize
  | .selector2 => 1 ≤ alphaSize
  | .selector3 => 1 ≤ alphaSize
  | .coding1 => 1 ≤ alphaSize
  | .coding3 => 1 ≤ alphaSize
  | .coding2 => 1 ≤ alphaSize ∧ 1 ≤ curr ∧ curr ≤ 20
  | _ => True

/-- The per-state obligation of a machine. -/
def pcOb (m : M) : Prop :=
  pcObAt m.pc m.zn m.gMinlen m.alphaSize m.curr

/-- All recorded code lengths and group minima are at most 20. -/
def lenOk (m : M) : Prop :=
  (∀ x ∈ m.minLens, x ≤ 20) ∧ (∀ r ∈ m.len, ∀ x ∈ r, x ≤ 20)

/-- The machine invariant: bit-count bounds plus the length facts and the
per-state obligation. -/
def GInv (m : M) : Prop :=
  0 ≤ m.bsLive ∧ m.bsLive ≤ 32 ∧ lenOk m ∧ pcOb m

/-- What one segment may do, relative to the bit count `bs` it was entered
with: it never reports `.need` (only `exec1` does), never touches the bit
buffer, keeps the length facts, and on a continuation also establishes the
obligation of the new state.  (An error `RETURN` may leave a state whose
obligation no longer holds — the session is then dead — but the length facts
and bit count survive.) -/
def stepOkAt (bs : Int) (s : Step) : Prop :=
  match s with
  | .need => False
  | .next m1 => m1.bsLive = bs ∧ lenOk m1 ∧ pcOb m1
  | .ret m1 _ => m1.bsLive = bs ∧ lenOk m1

/-- Reading a bounded list with default 0 stays bounded. -/
theorem getD_le_twenty (l : List Nat) (h : ∀ x ∈ l, x ≤ 20) (i : Nat) : l.getD i 0 ≤ 20 := by
  rcases hlt : l[i]? with _ | x
  · rw [List.getD_eq_getElem?_getD, hlt]
    norm_num
  · rw [List.getD_eq_getElem?_getD, hlt]
    exact h x (List.getElem?_mem hlt)

/-- Rows of a bounded ragged list are pointwise bounded. -/
theorem lenRow_le (m : M) (hlen : lenOk m) (tg : Nat) :
    ∀ x : Nat, (m.len.getD tg []).getD x 0 ≤ 20 := by
  intro x
  apply getD_le_twenty
  rcases hlt : m.len[tg]? with _ | row
  · rw [List.getD_eq_getElem?_getD, hlt]
    intro y hy
    simp at hy
  · rw [List.getD_eq_getElem?_getD, hlt]
    exact hlen.2 row (List.getElem?_mem hlt)

/-- The running minimum of the `minLen`/`maxLen` scan never increases. -/
theorem minMaxFold_le (row : List Nat) : ∀ (l : List Nat) (p : Nat × Nat),
    ((l.foldl (fun (q : Nat × Nat) s =>
      let target := row.getD s 0
      (if target < q.1 then target else q.1, if target > q.2 then target else q.2)) p).1)
      ≤ p.1 := by
  intro l
  induction l with
  | nil => intro p; exact le_refl p.1
  | cons s l ih =>
    intro p
    refine le_trans (ih _) ?_
    by_cases hlt : row.getD s 0 < p.1
    · simp only [if_pos hlt]
      omega
    · simp only [if_neg hlt]
      exact le_refl p.1

/-- With a nonempty alphabet of bounded lengths, the computed `minLen` is at
most 20. -/
theorem minLen_le (m : M) (hlen : lenOk m) (tg : Nat) (ha : 1 ≤ m.alphaSize) :
    ((List.range m.alphaSize).foldl (fun (p : Nat × Nat) s =>
      let target := (m.len.getD tg []).getD s 0
      (if target < p.1 then target else p.1, if target > p.2 then target else p.2))
      (32, 0)).1 ≤ 20 := by
  obtain ⟨k, hk⟩ : ∃ k, m.alphaSize = k + 1 := ⟨m.alphaSize - 1, by omega⟩
  rw [hk, List.range_succ_eq_map, List.foldl_cons]
  have h0 : (m.len.getD tg []).getD 0 0 ≤ 20 := lenRow_le m hlen tg 0
  refine le_trans (minMaxFold_le (m.len.getD tg []) _ _) ?_
  simp only [if_pos (show (m.len.getD tg []).getD 0 0 < 32 from by omega)]
  exact h0

/-- Membership after a `set`. -/
theorem mem_set_le (l : List Nat) (i v : Nat) (hl : ∀ x ∈ l, x ≤ 20) (hv : v ≤ 20) :
    ∀ x ∈ l.set i v, x ≤ 20 := by
  intro x hx
  rcases List.mem_or_eq_of_mem_set hx with h | h
  · exact hl x h
  · omega

/-- `buildOneTable` keeps the length facts (it writes one `minLens` entry,
which is at most 20) and does not touch `len`, `alphaSize` or the bit
count. -/
theorem buildOneTable_ok (m : M) (hlen : lenOk m) (ha : 1 ≤ m.alphaSize) (tg : Nat) :
    lenOk (buildOneTable m tg) ∧ (buildOneTable m tg).alphaSize = m.alphaSize ∧
    (buildOneTable m tg).bsLive = m.bsLive := by
  refine ⟨⟨?_, ?_⟩, rfl, rfl⟩
  · show ∀ x ∈ m.minLens.set tg _, x ≤ 20
    exact mem_set_le _ _ _ hlen.1 (minLen_le m hlen tg ha)
  · exact hlen.2

/-- `buildAllTables` keeps the length facts and the bit count. -/
theorem buildAllTables_ok (m : M) (hlen : lenOk m) (ha : 1 ≤ m.alphaSize) :
    lenOk (buildAllTables m) ∧ (buildAllTables m).bsLive = m.bsLive := by
  rw [buildAllTables]
  have hgen : ∀ (l : List Nat) (m0 : M), lenOk m0 → 1 ≤ m0.alphaSize →
      m0.bsLive = m.bsLive →
      lenOk (l.foldl buildOneTable m0) ∧ (l.foldl buildOneTable m0).bsLive = m.bsLive := by
    intro l
    induction l with
    | nil => intro m0 h1 _ h3; exact ⟨h1, h3⟩
    | cons tg l ih =>
      intro m0 h1 h2 h3
      obtain ⟨hl1, hl2, hl3⟩ := buildOneTable_ok m0 h1 h2 tg
      exact ih (buildOneTable m0 tg) hl1 (by omega) (by rw [hl3, h3])
  exact hgen (List.range m.nGroups) m hlen ha rfl

end Bzip2

namespace Bzip2

/-- `stepOkAt` depends on the step only; the bit count can be rewritten. -/
theorem stepOkAt_congr {bs bt : Int} {s : Step} (h : bs = bt) (hs : stepOkAt bs s) :
    stepOkAt bt s := h ▸ hs

/-- Rows of a bounded ragged list, as members. -/
theorem lenRow_mem_le (m : M) (hlen : lenOk m) (tg : Nat) :
    ∀ x ∈ m.len.getD tg [], x ≤ 20 := by
  rcases hlt : m.len[tg]? with _ | row
  · rw [List.getD_eq_getElem?_getD, hlt]
    intro x hx
    simp at hx
  · rw [List.getD_eq_getElem?_getD, hlt]
    exact hlen.2 row (List.getElem?_mem hlt)

set_option maxRecDepth 8192 in
set_option maxHeartbeats 1000000 in
/-- The MTF-buffer access only rewrites `mtfa`/`mtfbase`: the bit count and
the length facts survive it. -/
theorem mtfGet_proj (m : M) (nn : Nat) :
    (mtfGet m nn).2.bsLive = m.bsLive ∧ (mtfGet m nn).2.minLens = m.minLens ∧
    (mtfGet m nn).2.len = m.len ∧ (mtfGet m nn).2.gMinlen = m.gMinlen := by
  unfold mtfGet
  dsimp only
  repeat' split
  all_goals exact ⟨rfl, rfl, rfl, rfl⟩

/-- The run flush only rewrites `es`, `unzftab`, `nblock` and the block array:
the bit count and the length facts survive it, on either outcome. -/
theorem runEmit_proj (m : M) (m1 : M) (h : runEmit m = .inl m1 ∨ runEmit m = .inr m1) :
    m1.bsLive = m.bsLive ∧ m1.minLens = m.minLens ∧ m1.len = m.len ∧
    m1.gMinlen = m.gMinlen := by
  rw [runEmit] at h
  rcases h with h | h <;>
  · repeat' split at h
    all_goals
      first
        | (injection h with h3
           subst h3
           exact ⟨rfl, rfl, rfl, rfl⟩)
        | (injection h)

end Bzip2

namespace Bzip2

/-- The `GET_MTF_VAL` entry transition keeps the invariant: on a group reload
the new `gMinlen` is a `minLens` entry (at most 20); otherwise `gMinlen` is
unchanged, so the target fetch width `zn = gMinlen` stays at most 20. -/
theorem stepOkAt_toMtfFetch (m : M) (tgt : XState)
    (htgt : tgt = .mtf1 ∨ tgt = .mtf3 ∨ tgt = .mtf5)
    (hlen : lenOk m) (hg : m.groupPos = 0 ∨ m.gMinlen ≤ 20) :
    stepOkAt m.bsLive (toMtfFetch tgt m) := by
  rw [toMtfFetch, getMtfPre]
  by_cases h0 : m.groupPos = 0
  · rw [if_pos h0]
    by_cases h1 : m.groupNo + 1 ≥ (m.nSelectors : Int)
    · rw [if_pos h1]
      exact ⟨rfl, hlen⟩
    · rw [if_neg h1]
      refine ⟨rfl, hlen, ?_⟩
      have hb : m.minLens.getD (m.selector.getD (m.groupNo + 1).toNat 0) 0 ≤ 20 :=
        getD_le_twenty _ hlen.1 _
      rcases htgt with h | h | h <;> subst h <;> exact ⟨hb, hb⟩
  · rw [if_neg h0]
    have hg20 : m.gMinlen ≤ 20 := hg.resolve_left h0
    refine ⟨rfl, hlen, ?_⟩
    rcases htgt with h | h | h <;> subst h <;> exact ⟨hg20, hg20⟩

/-- The end-of-block segment always returns, rewriting only output-side
fields: bit count and length facts survive. -/
theorem stepOkAt_segEndOfBlock (m : M) (hlen : lenOk m) :
    stepOkAt m.bsLive (segEndOfBlock m) := by
  unfold segEndOfBlock
  dsimp only
  repeat' split
  all_goals exact ⟨rfl, hlen⟩

/-- The RUNA/RUNB arm keeps the invariant. -/
theorem stepOkAt_runBody (m : M) (hlen : lenOk m) (hg : m.gMinlen ≤ 20) :
    stepOkAt m.bsLive (runBody m) := by
  rw [runBody]
  cases h : runStepPure m.nextSym m.es m.N with
  | none => exact ⟨rfl, hlen⟩
  | some st =>
    exact stepOkAt_toMtfFetch { m with es := st.1, N := st.2 } .mtf3
      (Or.inr (Or.inl rfl)) hlen (Or.inr hg)

/-- The literal arm keeps the invariant (the MTF access only rewrites the MTF
buffers). -/
theorem stepOkAt_segLiteral (m : M) (hlen : lenOk m) (hg : m.gMinlen ≤ 20) :
    stepOkAt m.bsLive (segLiteral m) := by
  rw [segLiteral]
  by_cases h1 : m.nblock ≥ m.nblockMAX
  · rw [if_pos h1]
    exact ⟨rfl, hlen⟩
  · rw [if_neg h1]
    have hp := mtfGet_proj m (m.nextSym - 1)
    rcases hm : mtfGet m (m.nextSym - 1) with ⟨uc, m1⟩
    rw [hm] at hp
    obtain ⟨hb, hmin, hl, hgm⟩ := hp
    have hlen1 : lenOk m1 := ⟨by rw [hmin]; exact hlen.1, by rw [hl]; exact hlen.2⟩
    have hg1 : m1.gMinlen ≤ 20 := by rw [hgm]; exact hg
    dsimp only
    split
    · exact stepOkAt_congr hb
        (stepOkAt_toMtfFetch _ .mtf5 (Or.inr (Or.inr rfl)) hlen1 (Or.inr hg1))
    · exact stepOkAt_congr hb
        (stepOkAt_toMtfFetch _ .mtf5 (Or.inr (Or.inr rfl)) hlen1 (Or.inr hg1))

/-- The symbol dispatch keeps the invariant. -/
theorem stepOkAt_mtfDispatch (m : M) (hlen : lenOk m) (hg : m.gMinlen ≤ 20) :
    stepOkAt m.bsLive (mtfDispatch m) := by
  rw [mtfDispatch]
  by_cases h1 : m.nextSym = m.EOB
  · rw [if_pos h1]
    exact stepOkAt_segEndOfBlock m hlen
  · rw [if_neg h1]
    by_cases h2 : m.nextSym = BZ_RUNA ∨ m.nextSym = BZ_RUNB
    · rw [if_pos h2]
      exact stepOkAt_runBody { m with es := -1, N := 1 } hlen hg
    · rw [if_neg h2]
      exact stepOkAt_segLiteral m hlen hg

/-- The continuation inside the run loop keeps the invariant. -/
theorem stepOkAt_mtfRunNext (m : M) (hlen : lenOk m) (hg : m.gMinlen ≤ 20) :
    stepOkAt m.bsLive (mtfRunNext m) := by
  rw [mtfRunNext]
  by_cases h1 : m.nextSym = BZ_RUNA ∨ m.nextSym = BZ_RUNB
  · rw [if_pos h1]
    exact stepOkAt_runBody m hlen hg
  · rw [if_neg h1]
    cases he : runEmit m with
    | inl m1 =>
      obtain ⟨hb, hmin, hl, _⟩ := runEmit_proj m m1 (Or.inl he)
      exact ⟨hb, by rw [hmin]; exact hlen.1, by rw [hl]; exact hlen.2⟩
    | inr m1 =>
      obtain ⟨hb, hmin, hl, hgm⟩ := runEmit_proj m m1 (Or.inr he)
      exact stepOkAt_congr hb
        (stepOkAt_mtfDispatch m1 ⟨by rw [hmin]; exact hlen.1, by rw [hl]; exact hlen.2⟩
          (by rw [hgm]; exact hg))

/-- The code-refinement continuation keeps the invariant: a continuation bit
goes to one of the 1-bit labels, a decoded symbol to the run loop or
dispatch. -/
theorem stepOkAt_huffAfter (pair : Nat) (m : M) (hlen : lenOk m) (hg : m.gMinlen ≤ 20) :
    stepOkAt m.bsLive (huffAfter pair m) := by
  rw [huffAfter]
  by_cases h1 : m.zn > 20
  · rw [if_pos h1]
    exact ⟨rfl, hlen⟩
  · rw [if_neg h1]
    by_cases h2 : (m.zvec : Int) ≤ (m.limit.getD m.gSel []).getD m.zn 0
    · rw [if_pos h2]
      dsimp only
      split
      · exact ⟨rfl, hlen⟩
      · rw [symCont]
        by_cases h3 : pair = 1
        · rw [if_pos h3]
          exact stepOkAt_mtfRunNext _ hlen hg
        · rw [if_neg h3]
          exact stepOkAt_mtfDispatch _ hlen hg
    · rw [if_neg h2]
      refine ⟨rfl, hlen, ?_⟩
      rcases pair with _ | _ | p
      · exact hg
      · exact hg
      · exact hg

end Bzip2

namespace Bzip2

/-- The loop-top range check keeps the invariant and establishes the
`coding2` obligation on the continuation. -/
theorem stepOkAt_codingLoopTop (m : M) (hlen : lenOk m) (ha : 1 ≤ m.alphaSize) :
    stepOkAt m.bsLive (codingLoopTop m) := by
  rw [codingLoopTop]
  by_cases h : m.curr < 1 ∨ m.curr > 20
  · rw [if_pos h]
    exact ⟨rfl, hlen⟩
  · rw [if_neg h]
    push_neg at h
    exact ⟨rfl, hlen, ha, h.1, h.2⟩

/-- The block between the tables and the first symbol fetch keeps the
invariant: the freshly built `minLens` entries are at most 20 and the first
`GET_MTF_VAL` reloads the group (`groupPos = 0`). -/
theorem stepOkAt_afterCoding (m : M) (hlen : lenOk m) (ha : 1 ≤ m.alphaSize) :
    stepOkAt m.bsLive (afterCoding m) := by
  rw [afterCoding]
  obtain ⟨hl1, hb1⟩ := buildAllTables_ok m hlen ha
  rcases mtfInitOuter 16 (MTFA_SIZE - 1) (buildAllTables m).mtfa (buildAllTables m).mtfbase
    with ⟨a, base⟩
  exact stepOkAt_congr hb1 (stepOkAt_toMtfFetch _ .mtf1 (Or.inl rfl) hl1 (Or.inl rfl))

/-- End of a group's symbol loop keeps the invariant. -/
theorem stepOkAt_codingGroupDone (m : M) (hlen : lenOk m) (ha : 1 ≤ m.alphaSize) :
    stepOkAt m.bsLive (codingGroupDone m) := by
  rw [codingGroupDone]
  by_cases h : m.t + 1 < m.nGroups
  · rw [if_pos h]
    exact ⟨rfl, hlen, ha⟩
  · rw [if_neg h]
    exact stepOkAt_afterCoding { m with t := m.t + 1 } hlen ha

/-- The symbol-loop header keeps the invariant. -/
theorem stepOkAt_codingSymLoop (m : M) (hlen : lenOk m) (ha : 1 ≤ m.alphaSize) :
    stepOkAt m.bsLive (codingSymLoop m) := by
  rw [codingSymLoop]
  by_cases h : m.i < m.alphaSize
  · rw [if_pos h]
    exact stepOkAt_codingLoopTop m hlen ha
  · rw [if_neg h]
    exact stepOkAt_codingGroupDone m hlen ha

/-- Storing one code length keeps the invariant: the stored byte is
`curr.toNat % 256 = curr ∈ [1, 20]` by the `coding2` obligation. -/
theorem stepOkAt_segCoding2 (m : M) (v : Nat) (hlen : lenOk m)
    (ha : 1 ≤ m.alphaSize) (h1 : 1 ≤ m.curr) (h2 : m.curr ≤ 20) :
    stepOkAt m.bsLive (segCoding2 m v) := by
  rw [segCoding2]
  by_cases hv : v = 0
  · rw [if_pos hv]
    refine stepOkAt_codingSymLoop _ ⟨hlen.1, ?_⟩ ha
    intro r hr
    rcases List.mem_or_eq_of_mem_set hr with h | h
    · exact hlen.2 r h
    · subst h
      intro x hx
      rcases List.mem_or_eq_of_mem_set hx with h | h
      · exact lenRow_mem_le m hlen m.t x h
      · subst h
        omega
  · rw [if_neg hv]
    exact ⟨rfl, hlen, ha⟩

/-- The end of the mapping phase keeps the invariant; the new `alphaSize` is
`nInUse + 2 ≥ 1`. -/
theorem stepOkAt_mappingFinish (m : M) (hlen : lenOk m) :
    stepOkAt m.bsLive (mappingFinish m) := by
  rw [mappingFinish]
  rcases makeMaps_d m.inUse m.seqToUnseq with ⟨nI, seq⟩
  dsimp only
  by_cases h : nI = 0
  · rw [if_pos h]
    exact ⟨rfl, hlen⟩
  · rw [if_neg h]
    exact ⟨rfl, hlen, show 1 ≤ nI + 2 by omega⟩

/-- The outer mapping scan keeps the invariant (induction on the fuel). -/
theorem stepOkAt_mappingScanAux : ∀ (k : Nat) (m : M), lenOk m →
    stepOkAt m.bsLive (mappingScanAux k m) := by
  intro k
  induction k with
  | zero =>
    intro m hlen
    exact stepOkAt_mappingFinish m hlen
  | succ k ih =>
    intro m hlen
    rw [mappingScanAux]
    by_cases h : m.inUse16.getD m.i false
    · rw [if_pos h]
      exact ⟨rfl, hlen, True.intro⟩
    · rw [if_neg h]
      exact ih { m with i := m.i + 1 } hlen

end Bzip2

namespace Bzip2

/-- Mapping bit segments keep the invariant. -/
theorem stepOkAt_segMapping1 (m : M) (v : Nat) (hlen : lenOk m) :
    stepOkAt m.bsLive (segMapping1 m v) := by
  rw [segMapping1]
  try dsimp only
  by_cases h : m.i + 1 < 16
  · rw [if_pos h]
    exact ⟨rfl, hlen, True.intro⟩
  · rw [if_neg h]
    rw [mappingScan]
    exact stepOkAt_mappingScanAux _ _ hlen

/-- Member-bit segments keep the invariant. -/
theorem stepOkAt_segMapping2 (m : M) (v : Nat) (hlen : lenOk m) :
    stepOkAt m.bsLive (segMapping2 m v) := by
  rw [segMapping2]
  try dsimp only
  by_cases hv : v == 1 <;>
    [rw [if_pos hv]; rw [if_neg hv]] <;>
    (try dsimp only) <;>
    (first
      | (by_cases h : m.j + 1 < 16
         · rw [if_pos h]
           exact ⟨rfl, hlen, True.intro⟩
         · rw [if_neg h]
           rw [mappingScan]
           exact stepOkAt_mappingScanAux _ _ hlen))

/-- The selector-count segments and the selector loop keep the invariant
(the `alphaSize ≥ 1` obligation of the selector states is carried along to
`coding1`). -/
theorem stepOkAt_segSelector1 (m : M) (v : Nat) (hlen : lenOk m) (ha : 1 ≤ m.alphaSize) :
    stepOkAt m.bsLive (segSelector1 m v) := by
  rw [segSelector1]
  by_cases h : v < 2 ∨ v > BZ_N_GROUPS
  · rw [if_pos h]
    exact ⟨rfl, hlen⟩
  · rw [if_neg h]
    exact ⟨rfl, hlen, ha⟩

/-- See `stepOkAt_segSelector1`. -/
theorem stepOkAt_segSelector2 (m : M) (v : Nat) (hlen : lenOk m) (ha : 1 ≤ m.alphaSize) :
    stepOkAt m.bsLive (segSelector2 m v) := by
  rw [segSelector2]
  by_cases h : v < 1
  · rw [if_pos h]
    exact ⟨rfl, hlen⟩
  · rw [if_neg h]
    exact ⟨rfl, hlen, ha⟩

/-- The selector-loop exit keeps the invariant and hands `alphaSize ≥ 1` to
`coding1`. -/
theorem stepOkAt_selectorsDone (m : M) (hlen : lenOk m) (ha : 1 ≤ m.alphaSize) :
    stepOkAt m.bsLive (selectorsDone m) := by
  rw [selectorsDone]
  exact ⟨rfl, hlen, ha⟩

/-- One selector bit keeps the invariant. -/
theorem stepOkAt_segSelector3 (m : M) (v : Nat) (hlen : lenOk m) (ha : 1 ≤ m.alphaSize) :
    stepOkAt m.bsLive (segSelector3 m v) := by
  rw [segSelector3]
  by_cases hv : v = 0
  · rw [if_pos hv]
    try dsimp only
    split
    · split
      · exact ⟨rfl, hlen, ha⟩
      · exact stepOkAt_selectorsDone _ hlen ha
    · split
      · exact ⟨rfl, hlen, ha⟩
      · exact stepOkAt_selectorsDone _ hlen ha
  · rw [if_neg hv]
    by_cases h : m.j + 1 ≥ m.nGroups
    · rw [if_pos h]
      exact ⟨rfl, hlen⟩
    · rw [if_neg h]
      exact ⟨rfl, hlen, ha⟩

end Bzip2

namespace Bzip2

/-- Every segment satisfies `stepOkAt`: it never reports `.need`, never
touches the bit buffer, preserves the length facts, and establishes the
obligation of its continuation state. -/
theorem stepOkAt_runSeg (m : M) (v : Nat) (hlen : lenOk m) (hob : pcOb m) :
    stepOkAt m.bsLive (runSeg m v) := by
  rw [runSeg.eq_def, pcOb] at *
  revert hob
  cases hpc : m.pc <;> intro hob <;> (try simp only [pcObAt] at hob) <;> (try dsimp only)
  case idle => exact ⟨rfl, hlen⟩
  case output => exact ⟨rfl, hlen⟩
  case magic1 =>
    rw [segMagic1]
    split_ifs <;> first | exact ⟨rfl, hlen⟩ | exact ⟨rfl, hlen, True.intro⟩
  case magic2 =>
    rw [segMagic2]
    split_ifs <;> first | exact ⟨rfl, hlen⟩ | exact ⟨rfl, hlen, True.intro⟩
  case magic3 =>
    rw [segMagic3]
    split_ifs <;> first | exact ⟨rfl, hlen⟩ | exact ⟨rfl, hlen, True.intro⟩
  case blkhdr1 =>
    rw [segBlkhdr1]
    split_ifs <;> first | exact ⟨rfl, hlen⟩ | exact ⟨rfl, hlen, True.intro⟩
  case blkhdr2 =>
    rw [segBlkhdr2]
    split_ifs <;> first | exact ⟨rfl, hlen⟩ | exact ⟨rfl, hlen, True.intro⟩
  case blkhdr3 =>
    rw [segBlkhdr3]
    split_ifs <;> first | exact ⟨rfl, hlen⟩ | exact ⟨rfl, hlen, True.intro⟩
  case blkhdr4 =>
    rw [segBlkhdr4]
    split_ifs <;> first | exact ⟨rfl, hlen⟩ | exact ⟨rfl, hlen, True.intro⟩
  case blkhdr5 =>
    rw [segBlkhdr5]
    split_ifs <;> first | exact ⟨rfl, hlen⟩ | exact ⟨rfl, hlen, True.intro⟩
  case blkhdr6 =>
    rw [segBlkhdr6]
    split_ifs <;> first | exact ⟨rfl, hlen⟩ | exact ⟨rfl, hlen, True.intro⟩
  case endhdr2 =>
    rw [segEndhdr2]
    split_ifs <;> first | exact ⟨rfl, hlen⟩ | exact ⟨rfl, hlen, True.intro⟩
  case endhdr3 =>
    rw [segEndhdr3]
    split_ifs <;> first | exact ⟨rfl, hlen⟩ | exact ⟨rfl, hlen, True.intro⟩
  case endhdr4 =>
    rw [segEndhdr4]
    split_ifs <;> first | exact ⟨rfl, hlen⟩ | exact ⟨rfl, hlen, True.intro⟩
  case endhdr5 =>
    rw [segEndhdr5]
    split_ifs <;> first | exact ⟨rfl, hlen⟩ | exact ⟨rfl, hlen, True.intro⟩
  case endhdr6 =>
    rw [segEndhdr6]
    split_ifs <;> first | exact ⟨rfl, hlen⟩ | exact ⟨rfl, hlen, True.intro⟩
  case magic4 =>
    rw [segMagic4]
    try dsimp only
    split_ifs <;> first | exact ⟨rfl, hlen⟩ | exact ⟨rfl, hlen, True.intro⟩
  case bcrc1 =>
    rw [segBcrc]
    exact ⟨rfl, hlen, True.intro⟩
  case bcrc2 =>
    rw [segBcrc]
    exact ⟨rfl, hlen, True.intro⟩
  case bcrc3 =>
    rw [segBcrc]
    exact ⟨rfl, hlen, True.intro⟩
  case bcrc4 =>
    rw [segBcrc]
    exact ⟨rfl, hlen, True.intro⟩
  case randbit =>
    rw [segRandbit]
    exact ⟨rfl, hlen, True.intro⟩
  case origptr1 =>
    rw [segOrigPtrShift]
    exact ⟨rfl, hlen, True.intro⟩
  case origptr2 =>
    rw [segOrigPtrShift]
    exact ⟨rfl, hlen, True.intro⟩
  case origptr3 =>
    rw [segOrigPtr3]
    try dsimp only
    split_ifs <;> first | exact ⟨rfl, hlen⟩ | exact ⟨rfl, hlen, True.intro⟩
  case mapping1 => exact stepOkAt_segMapping1 m v hlen
  case mapping2 => exact stepOkAt_segMapping2 m v hlen
  case selector1 => exact stepOkAt_segSelector1 m v hlen hob
  case selector2 => exact stepOkAt_segSelector2 m v hlen hob
  case selector3 => exact stepOkAt_segSelector3 m v hlen hob
  case coding1 =>
    rw [segCoding1]
    exact stepOkAt_codingSymLoop _ hlen hob
  case coding2 => exact stepOkAt_segCoding2 m v hlen hob.1 hob.2.1 hob.2.2
  case coding3 =>
    rw [segCoding3]
    exact stepOkAt_codingLoopTop _ hlen hob
  case mtf1 =>
    rw [segMtf1]
    exact stepOkAt_huffAfter 0 _ hlen hob.2
  case mtf2 =>
    rw [segMtf2]
    exact stepOkAt_huffAfter 0 _ hlen hob
  case mtf3 =>
    rw [segMtf3]
    exact stepOkAt_huffAfter 1 _ hlen hob.2
  case mtf4 =>
    rw [segMtf4]
    exact stepOkAt_huffAfter 1 _ hlen hob
  case mtf5 =>
    rw [segMtf5]
    exact stepOkAt_huffAfter 2 _ hlen hob.2
  case mtf6 =>
    rw [segMtf6]
    exact stepOkAt_huffAfter 2 _ hlen hob
  case ccrc1 =>
    rw [segCcrc]
    exact ⟨rfl, hlen, True.intro⟩
  case ccrc2 =>
    rw [segCcrc]
    exact ⟨rfl, hlen, True.intro⟩
  case ccrc3 =>
    rw [segCcrc]
    exact ⟨rfl, hlen, True.intro⟩
  case ccrc4 =>
    rw [segCcrc4]
    exact ⟨rfl, hlen⟩

end Bzip2

namespace Bzip2

/-- No `GET_BITS` asks for more than 24 bits: all literal widths are at most
15 except the octet fetches (8), and the variable width `zn` is at most 20 by
the per-state obligation. -/
theorem widthOf_le (m : M) (hob : pcOb m) : widthOf m ≤ 24 := by
  rw [widthOf.eq_def]
  rw [pcOb] at hob
  revert hob
  cases hpc : m.pc <;> intro hob <;> (try simp only [pcObAt] at hob) <;>
    (try dsimp only) <;> omega

/-- One macro step preserves the invariant: a continuation or a `RETURN`
keeps `0 ≤ bsLive ≤ 32` (a fetch subtracts at most the available bits), and
when a byte is needed the refill keeps it (at most 24 bits were present, 8
arrive). -/
theorem exec1_inv (m : M) (hG : GInv m) :
    (∀ m1, exec1 m = .next m1 → GInv m1) ∧
    (∀ m1 c, exec1 m = .ret m1 c → 0 ≤ m1.bsLive ∧ m1.bsLive ≤ 32 ∧ lenOk m1) ∧
    (exec1 m = .need → ∀ b, GInv (shiftByte m b)) := by
  obtain ⟨hb0, hb32, hlen, hob⟩ := hG
  by_cases hoi : m.pc = .output ∨ m.pc = .idle
  · refine ⟨?_, ?_, ?_⟩
    · intro m1 h
      rw [exec1, if_pos hoi] at h
      cases h
    · intro m1 c h
      rw [exec1, if_pos hoi] at h
      injection h with h1 h2
      subst h1
      exact ⟨hb0, hb32, hlen⟩
    · intro h
      rw [exec1, if_pos hoi] at h
      cases h
  · by_cases hge : m.bsLive ≥ (widthOf m : Int)
    · have hw0 : (0 : Int) ≤ (widthOf m : Int) := Int.ofNat_nonneg _
      have hs := stepOkAt_runSeg { m with bsLive := m.bsLive - widthOf m }
        (bsExtract m.bsBuff m.bsLive (widthOf m)) hlen hob
      refine ⟨?_, ?_, ?_⟩
      · intro m1 h
        rw [exec1, if_neg hoi, if_pos hge] at h
        rw [h] at hs
        obtain ⟨hsb, hsl, hso⟩ := hs
        have hsb2 : m1.bsLive = m.bsLive - (widthOf m : Int) := hsb
        exact ⟨by omega, by omega, hsl, hso⟩
      · intro m1 c h
        rw [exec1, if_neg hoi, if_pos hge] at h
        rw [h] at hs
        obtain ⟨hsb, hsl⟩ := hs
        have hsb2 : m1.bsLive = m.bsLive - (widthOf m : Int) := hsb
        exact ⟨by omega, by omega, hsl⟩
      · intro h
        rw [exec1, if_neg hoi, if_pos hge] at h
        rw [h] at hs
        cases hs
    · have hwle : widthOf m ≤ 24 := widthOf_le m hob
      refine ⟨?_, ?_, ?_⟩
      · intro m1 h
        rw [exec1, if_neg hoi, if_neg hge] at h
        cases h
      · intro m1 c h
        rw [exec1, if_neg hoi, if_neg hge] at h
        cases h
      · intro _ b
        refine ⟨by rw [shiftByte]; dsimp only; omega, ?_, hlen, hob⟩
        rw [shiftByte]
        dsimp only
        have : m.bsLive < (widthOf m : Int) := by omega
        have h24 : (widthOf m : Int) ≤ 24 := by exact_mod_cast hwle
        omega

/-- The invariant holds on the session a call of `BZ2_decompress` hands back:
the bit-count bounds hold on any return, and a suspension (which is how a
session continues) preserves the whole invariant. -/
theorem feed_inv : ∀ (f : Nat) (m : M) (inp : List Byte) (m1 : M) (l : List Byte) (r : Res),
    GInv m → feed f m inp = some (m1, l, r) →
    (0 ≤ m1.bsLive ∧ m1.bsLive ≤ 32) ∧ (r = .suspended → GInv m1) := by
  intro f
  induction f with
  | zero =>
    intro m inp m1 l r _ h
    simp [feed] at h
  | succ f ih =>
    intro m inp m1 l r hG h
    rw [feed_succ] at h
    obtain ⟨hnext, hret, hneed⟩ := exec1_inv m hG
    cases hstep : exec1 m with
    | ret m2 c =>
      rw [hstep] at h
      simp only [Option.some.injEq, Prod.mk.injEq] at h
      obtain ⟨h1, h2, h3⟩ := h
      subst h1
      obtain ⟨hq0, hq32, _⟩ := hret m2 c hstep
      refine ⟨⟨hq0, hq32⟩, ?_⟩
      intro hr
      rw [← h3] at hr
      cases hr
    | next m2 =>
      rw [hstep] at h
      exact ih m2 inp m1 l r (hnext m2 hstep) h
    | need =>
      rw [hstep] at h
      cases inp with
      | nil =>
        simp only [Option.some.injEq, Prod.mk.injEq] at h
        obtain ⟨h1, _, _⟩ := h
        subst h1
        exact ⟨⟨hG.1, hG.2.1⟩, fun _ => hG⟩
      | cons b rest =>
        exact ih (shiftByte m b) rest m1 l r (hneed hstep b) h

/-- Reachable sessions of the decompressor: a fresh one
(`BZ2_bzDecompressInit`), or the session saved by a call that suspended
awaiting input (a call that returned an error ends the session). -/
inductive ReachM : M → Prop where
  | init (small : Bool) : ReachM (initM small)
  | step {m m1 : M} {f : Nat} {inp : List Byte} : ReachM m →
      feed f m inp = some (m1, [], .suspended) → ReachM m1

/-- A fresh session satisfies the invariant. -/
theorem GInv_initM (small : Bool) : GInv (initM small) := by
  refine ⟨le_refl 0, show (0 : Int) ≤ 32 by norm_num, ⟨?_, ?_⟩, True.intro⟩
  · intro x hx
    have h := List.eq_of_mem_replicate hx
    omega
  · intro r hr x hx
    have h1 := List.eq_of_mem_replicate hr
    subst h1
    have h2 := List.eq_of_mem_replicate hx
    omega

/-- Every reachable session satisfies the invariant. -/
theorem ReachM_GInv {m : M} (h : ReachM m) : GInv m := by
  induction h with
  | init small => exact GInv_initM small
  | step hm hf ih => exact (feed_inv _ _ _ _ _ _ ih hf).2 rfl

end Bzip2

namespace Bzip2

/-- C8: on every session `BZ2_decompress` can be called on (fresh, or saved
by a suspended call), `0 ≤ bsLive ≤ 32` holds, every `GET_BITS` fetch asks
for at most 24 bits, and the session saved by any `save_state_and_return`
(any outcome of a call) again satisfies `0 ≤ bsLive ≤ 32`. -/
theorem c8_bsLive_invariant :
    (∀ m : M, ReachM m → widthOf m ≤ 24 ∧ 0 ≤ m.bsLive ∧ m.bsLive ≤ 32) ∧
    (∀ (f : Nat) (m m1 : M) (inp l : List Byte) (r : Res), ReachM m →
      feed f m inp = some (m1, l, r) → 0 ≤ m1.bsLive ∧ m1.bsLive ≤ 32) := by
  constructor
  · intro m hR
    have hG := ReachM_GInv hR
    exact ⟨widthOf_le m hG.2.2.2, hG.1, hG.2.1⟩
  · intro f m m1 inp l r hR h
    exact (feed_inv f m inp m1 l r (ReachM_GInv hR) h).1

/-- The C8 theorem applied to a fresh session and a first call on empty
input. -/
theorem c8_bsLive_invariant_witness :
    (widthOf (initM false) ≤ 24 ∧ 0 ≤ (initM false).bsLive ∧ (initM false).bsLive ≤ 32) ∧
    (0 ≤ (initM false).bsLive ∧ (initM false).bsLive ≤ 32) :=
  ⟨c8_bsLive_invariant.1 (initM false) (ReachM.init false),
   c8_bsLive_invariant.2 1 (initM false) (initM false) [] [] .suspended
     (ReachM.init false) rfl⟩

end Bzip2

namespace Bzip2

/-- Bytes of a stream prefix that suspends exactly at a `BZ_X_CODING_2`
fetch: magic `BZh1`, block header, block CRC 0, randomised bit 0,
`origPtr` 0, a mapping with one used symbol, `nGroups` 2, eight one-bit
selector codes, and a 5-bit initial code length of 1 (200 bits, 25 octets). -/
def c4bytes : List Byte :=
  [66, 90, 104, 49, 49, 65, 89, 38, 83, 89, 0, 0, 0,
   0, 0, 0, 0, 64, 0, 64, 0, 32, 1, 0, 1]

/-- The session suspended at the `BZ_X_CODING_2` fetch of `c4bytes`. -/
def mC4 : M :=
  match feed 300 (initM false) c4bytes with
  | some (m, _, _) => m
  | none => initM false

/-- C4: at the top of the per-symbol delta loop (reached after the 5-bit
initial length and after every adjustment), a current length outside `[1, 20]`
makes the call return `BZ_DATA_ERROR`; an adjustment leaving `[1, 20]` is
caught by that check before any further bit is fetched; and on any reachable
session suspended at the `BZ_X_CODING_2` fetch — the state from which a
length is stored into `len` — the current length, and hence the stored byte
`curr.toNat % 256`, lies in `[1, 20]`. -/
theorem c4_code_length_checks :
    (∀ m : M, (m.curr < 1 ∨ m.curr > 20) → codingLoopTop m = .ret m .dataError) ∧
    (∀ (m : M) (v : Nat),
      ((if v = 0 then m.curr + 1 else m.curr - 1) < 1 ∨
        (if v = 0 then m.curr + 1 else m.curr - 1) > 20) →
      segCoding3 m v =
        .ret { m with curr := if v = 0 then m.curr + 1 else m.curr - 1 } .dataError) ∧
    (∀ (f : Nat) (m m1 : M) (inp l : List Byte), ReachM m →
      feed f m inp = some (m1, l, .suspended) → m1.pc = .coding2 →
      (1 ≤ m1.curr ∧ m1.curr ≤ 20) ∧ 1 ≤ m1.curr.toNat % 256 ∧ m1.curr.toNat % 256 ≤ 20) := by
  have htop : ∀ m : M, (m.curr < 1 ∨ m.curr > 20) → codingLoopTop m = .ret m .dataError := by
    intro m h
    rw [codingLoopTop, if_pos h]
  refine ⟨htop, ?_, ?_⟩
  · intro m v h
    rw [segCoding3]
    exact htop { m with curr := if v = 0 then m.curr + 1 else m.curr - 1 } h
  · intro f m m1 inp l hR hf hpc
    have hG := (feed_inv f m inp m1 l .suspended (ReachM_GInv hR) hf).2 rfl
    have hob := hG.2.2.2
    rw [pcOb, hpc] at hob
    simp only [pcObAt] at hob
    obtain ⟨_, h1, h2⟩ := hob
    exact ⟨⟨h1, h2⟩, by omega, by omega⟩

set_option maxRecDepth 100000 in
set_option maxHeartbeats 2000000 in
/-- The C4 theorem applied at concrete states: current length 21 errors at
the loop top; a `-1` adjustment of the fresh state's length 0 errors; and the
concrete session suspended at `BZ_X_CODING_2` after `c4bytes` carries a
current length in `[1, 20]`. -/
theorem c4_code_length_checks_witness :
    (codingLoopTop { initM false with curr := 21 } =
      .ret { initM false with curr := 21 } .dataError) ∧
    (segCoding3 (initM false) 1 =
      .ret { initM false with curr := (initM false).curr - 1 } .dataError) ∧
    (ReachM (initM false) ∧
      feed 300 (initM false) c4bytes = some (mC4, [], .suspended) ∧
      mC4.pc = .coding2) ∧
    ((1 ≤ mC4.curr ∧ mC4.curr ≤ 20) ∧ 1 ≤ mC4.curr.toNat % 256 ∧ mC4.curr.toNat % 256 ≤ 20) :=
  ⟨c4_code_length_checks.1 { initM false with curr := 21 } (Or.inr (by decide)),
   c4_code_length_checks.2.1 (initM false) 1 (Or.inl (by decide)),
   ⟨ReachM.init false, rfl, rfl⟩,
   c4_code_length_checks.2.2 300 (initM false) mC4 c4bytes [] (ReachM.init false) rfl rfl⟩

end Bzip2
